import Mathlib

/-!
Shallow embedding of the project-schedule calculator in src/script.js.

Dates are modelled as integer day numbers (the count of calendar days since
1970-01-01, which was a Thursday).  Every date string stored by the program is
a date-only string, so the JavaScript Date values appearing in the scheduling
logic are all midnights and their differences are exact whole days; stepping a
Date by setDate(getDate() +- 1) is stepping the day number by one.  The
JavaScript getDay() of day number d is (d + 4) % 7 with Sunday = 0.

The holiday set appState.globalHolidays is threaded explicitly as a list of
day numbers.
-/

namespace MiniSchedule

/-- JavaScript getDay: day of week of day number d, Sunday = 0. -/
def getDay (d : Int) : Int := (d + 4) % 7

/-- isWeekend from src/script.js: Saturday or Sunday. -/
def isWeekend (d : Int) : Bool := getDay d == 0 || getDay d == 6

/-- isHoliday from src/script.js: membership in the global holiday list. -/
def isHoliday (hs : List Int) (d : Int) : Bool := hs.contains d

/-- isWorkingDay from src/script.js. -/
def isWorkingDay (hs : List Int) (d : Int) : Bool := !isWeekend d && !isHoliday hs d

/-- Fuel bound for the working-day search loops: any window of
7 * (hs.length + 1) consecutive days contains a working day. -/
def workFuel (hs : List Int) : Nat := 7 * (hs.length + 1)

/-- The loop of ensureWorkingDayBackward, with fuel.  The fuel is large enough
that the zero-fuel branch is never reached (see seekBack_spec). -/
def seekBack (hs : List Int) : Nat → Int → Int
  | 0, d => d
  | fuel + 1, d => if isWorkingDay hs d then d else seekBack hs fuel (d - 1)

/-- The loop of ensureWorkingDayForward, with fuel. -/
def seekForward (hs : List Int) : Nat → Int → Int
  | 0, d => d
  | fuel + 1, d => if isWorkingDay hs d then d else seekForward hs fuel (d + 1)

/-- ensureWorkingDayBackward from src/script.js. -/
def ensureWorkingDayBackward (hs : List Int) (d : Int) : Int :=
  seekBack hs (workFuel hs) d

/-- ensureWorkingDayForward from src/script.js. -/
def ensureWorkingDayForward (hs : List Int) (d : Int) : Int :=
  seekForward hs (workFuel hs) d

/-- One iteration of the subBusinessDays loop body: the greatest working day
strictly before d. -/
def prevWorkingDay (hs : List Int) (d : Int) : Int :=
  ensureWorkingDayBackward hs (d - 1)

/-- One iteration of the addBusinessDays loop body: the least working day
strictly after d. -/
def nextWorkingDay (hs : List Int) (d : Int) : Int :=
  ensureWorkingDayForward hs (d + 1)

/-- The subBusinessDays loop, counted on the number of working-day steps. -/
def subBusinessAux (hs : List Int) : Nat → Int → Int
  | 0, d => d
  | n + 1, d => subBusinessAux hs n (prevWorkingDay hs d)

/-- The addBusinessDays loop, counted on the number of working-day steps. -/
def addBusinessAux (hs : List Int) : Nat → Int → Int
  | 0, d => d
  | n + 1, d => addBusinessAux hs n (nextWorkingDay hs d)

/-- subBusinessDays from src/script.js.  The loop runs while daysLeft > 0, so
a non-positive count returns the input unchanged (Int.toNat clamps at 0). -/
def subBusinessDays (hs : List Int) (d : Int) (n : Int) : Int :=
  subBusinessAux hs n.toNat d

/-- addBusinessDays from src/script.js. -/
def addBusinessDays (hs : List Int) (d : Int) (n : Int) : Int :=
  addBusinessAux hs n.toNat d

/-- In every backward window of workFuel hs consecutive days there is a
working day: there are hs.length + 1 distinct days of a fixed weekday
residue in the window, and at most hs.length of them can be holidays. -/
theorem exists_working_back (hs : List Int) (d : Int) :
    ∃ j : Nat, j < workFuel hs ∧ isWorkingDay hs (d - j) = true := by
  by_contra hcon
  push_neg at hcon
  -- every candidate Thursday in the window must be a holiday
  have hmem : ∀ i : Nat, i < hs.length + 1 → (d - (d % 7).toNat - 7 * i) ∈ hs := by
    intro i hi
    have hj : ((d % 7).toNat + 7 * i) < workFuel hs := by
      have h0 : 0 ≤ d % 7 := Int.emod_nonneg d (by norm_num)
      have h7 : d % 7 < 7 := Int.emod_lt_of_pos d (by norm_num)
      have : (d % 7).toNat < 7 := by omega
      simp only [workFuel]; omega
    have hne := hcon ((d % 7).toNat + 7 * i) hj
    have hcast : d - ((d % 7).toNat + 7 * i : Nat) = d - (d % 7).toNat - 7 * i := by
      push_cast; ring
    rw [hcast] at hne
    -- the candidate day is a Thursday, hence not a weekend
    have hthu : getDay (d - (d % 7).toNat - 7 * i) = 4 := by
      unfold getDay
      have h0 : 0 ≤ d % 7 := Int.emod_nonneg d (by norm_num)
      have h7 : d % 7 < 7 := Int.emod_lt_of_pos d (by norm_num)
      have hself : d % 7 = d - 7 * (d / 7) := by omega
      have : ((d % 7).toNat : Int) = d % 7 := Int.toNat_of_nonneg h0
      rw [this]
      omega
    have hwk : isWeekend (d - (d % 7).toNat - 7 * i) = false := by
      unfold isWeekend
      rw [hthu]
      decide
    have : isHoliday hs (d - (d % 7).toNat - 7 * i) = true := by
      unfold isWorkingDay at hne
      rw [hwk] at hne
      simpa using hne
    simpa [isHoliday, List.contains_iff_exists_mem_beq] using this
  -- the hs.length + 1 candidates are distinct members of hs
  have hinj : Set.InjOn (fun i : Nat => d - (d % 7).toNat - 7 * i)
      ↑(Finset.range (hs.length + 1)) := by
    intro a _ b _ hab
    simp only at hab
    omega
  have hsub : ∀ i ∈ Finset.range (hs.length + 1),
      (fun i : Nat => d - (d % 7).toNat - 7 * i) i ∈ hs.toFinset := by
    intro i hi
    simp only [List.mem_toFinset]
    exact hmem i (Finset.mem_range.mp hi)
  have hcard := Finset.card_le_card_of_injOn _ hsub hinj
  have h1 : (Finset.range (hs.length + 1)).card = hs.length + 1 := Finset.card_range _
  have h2 : hs.toFinset.card ≤ hs.length := hs.toFinset_card_le
  omega

/-- Forward version of exists_working_back. -/
theorem exists_working_forward (hs : List Int) (d : Int) :
    ∃ j : Nat, j < workFuel hs ∧ isWorkingDay hs (d + j) = true := by
  obtain ⟨j, hj, hw⟩ := exists_working_back hs (d + (workFuel hs - 1 : Nat))
  refine ⟨workFuel hs - 1 - j, by simp [workFuel]; omega, ?_⟩
  have : d + ((workFuel hs - 1 - j : Nat) : Int) = d + (workFuel hs - 1 : Nat) - j := by
    have : j ≤ workFuel hs - 1 := by omega
    push_cast [this]
    ring
  rw [this]
  exact hw

/-- Full specification of the seekBack loop: given enough fuel it returns the
greatest working day at or below the start. -/
theorem seekBack_spec (hs : List Int) :
    ∀ fuel : Nat, ∀ d : Int, (∃ j : Nat, j < fuel ∧ isWorkingDay hs (d - j) = true) →
      isWorkingDay hs (seekBack hs fuel d) = true ∧ seekBack hs fuel d ≤ d ∧
      ∀ e : Int, seekBack hs fuel d < e → e ≤ d → isWorkingDay hs e = false := by
  intro fuel
  induction fuel with
  | zero => intro d h; obtain ⟨j, hj, _⟩ := h; omega
  | succ n ih =>
    intro d h
    by_cases hw : isWorkingDay hs d = true
    · refine ⟨by simp [seekBack, hw], by simp [seekBack, hw], ?_⟩
      intro e h1 h2
      simp only [seekBack, hw, if_true] at h1
      omega
    · have hstep : seekBack hs (n + 1) d = seekBack hs n (d - 1) := by
        simp [seekBack, hw]
      obtain ⟨j, hj, hjw⟩ := h
      have hj0 : j ≠ 0 := by
        intro h0
        rw [h0] at hjw
        simp at hjw
        exact hw hjw
      have hprev : ∃ j : Nat, j < n ∧ isWorkingDay hs (d - 1 - j) = true := by
        refine ⟨j - 1, by omega, ?_⟩
        have : d - 1 - ((j - 1 : Nat) : Int) = d - j := by
          have : 1 ≤ j := by omega
          push_cast [this]
          ring
        rw [this]; exact hjw
      obtain ⟨h1, h2, h3⟩ := ih (d - 1) hprev
      rw [hstep]
      refine ⟨h1, by omega, ?_⟩
      intro e he1 he2
      by_cases hed : e = d
      · subst hed; simpa using hw
      · exact h3 e he1 (by omega)

/-- Full specification of the seekForward loop. -/
theorem seekForward_spec (hs : List Int) :
    ∀ fuel : Nat, ∀ d : Int, (∃ j : Nat, j < fuel ∧ isWorkingDay hs (d + j) = true) →
      isWorkingDay hs (seekForward hs fuel d) = true ∧ d ≤ seekForward hs fuel d ∧
      ∀ e : Int, d ≤ e → e < seekForward hs fuel d → isWorkingDay hs e = false := by
  intro fuel
  induction fuel with
  | zero => intro d h; obtain ⟨j, hj, _⟩ := h; omega
  | succ n ih =>
    intro d h
    by_cases hw : isWorkingDay hs d = true
    · refine ⟨by simp [seekForward, hw], by simp [seekForward, hw], ?_⟩
      intro e h1 h2
      simp only [seekForward, hw, if_true] at h2
      omega
    · have hstep : seekForward hs (n + 1) d = seekForward hs n (d + 1) := by
        simp [seekForward, hw]
      obtain ⟨j, hj, hjw⟩ := h
      have hj0 : j ≠ 0 := by
        intro h0
        rw [h0] at hjw
        simp at hjw
        exact hw hjw
      have hnext : ∃ j : Nat, j < n ∧ isWorkingDay hs (d + 1 + j) = true := by
        refine ⟨j - 1, by omega, ?_⟩
        have : d + 1 + ((j - 1 : Nat) : Int) = d + j := by
          have : 1 ≤ j := by omega
          push_cast [this]
          ring
        rw [this]; exact hjw
      obtain ⟨h1, h2, h3⟩ := ih (d + 1) hnext
      rw [hstep]
      refine ⟨h1, by omega, ?_⟩
      intro e he1 he2
      by_cases hed : e = d
      · subst hed; simpa using hw
      · exact h3 e (by omega) he2

/-- ensureWorkingDayBackward returns the greatest working day ≤ d. -/
theorem ensureWorkingDayBackward_spec (hs : List Int) (d : Int) :
    isWorkingDay hs (ensureWorkingDayBackward hs d) = true ∧
    ensureWorkingDayBackward hs d ≤ d ∧
    ∀ e : Int, ensureWorkingDayBackward hs d < e → e ≤ d → isWorkingDay hs e = false :=
  seekBack_spec hs (workFuel hs) d (exists_working_back hs d)

/-- ensureWorkingDayForward returns the least working day ≥ d. -/
theorem ensureWorkingDayForward_spec (hs : List Int) (d : Int) :
    isWorkingDay hs (ensureWorkingDayForward hs d) = true ∧
    d ≤ ensureWorkingDayForward hs d ∧
    ∀ e : Int, d ≤ e → e < ensureWorkingDayForward hs d → isWorkingDay hs e = false :=
  seekForward_spec hs (workFuel hs) d (exists_working_forward hs d)

/-- prevWorkingDay returns the greatest working day strictly before d. -/
theorem prevWorkingDay_spec (hs : List Int) (d : Int) :
    isWorkingDay hs (prevWorkingDay hs d) = true ∧
    prevWorkingDay hs d < d ∧
    ∀ e : Int, prevWorkingDay hs d < e → e < d → isWorkingDay hs e = false := by
  unfold prevWorkingDay
  obtain ⟨h1, h2, h3⟩ := ensureWorkingDayBackward_spec hs (d - 1)
  exact ⟨h1, by omega, fun e he1 he2 => h3 e he1 (by omega)⟩

/-- nextWorkingDay returns the least working day strictly after d. -/
theorem nextWorkingDay_spec (hs : List Int) (d : Int) :
    isWorkingDay hs (nextWorkingDay hs d) = true ∧
    d < nextWorkingDay hs d ∧
    ∀ e : Int, d < e → e < nextWorkingDay hs d → isWorkingDay hs e = false := by
  unfold nextWorkingDay
  obtain ⟨h1, h2, h3⟩ := ensureWorkingDayForward_spec hs (d + 1)
  exact ⟨h1, by omega, fun e he1 he2 => h3 e (by omega) he2⟩

/-- If d itself is working, snapping backward is the identity. -/
theorem ensureWorkingDayBackward_of_working (hs : List Int) (d : Int)
    (h : isWorkingDay hs d = true) : ensureWorkingDayBackward hs d = d := by
  unfold ensureWorkingDayBackward
  cases hfuel : workFuel hs with
  | zero => simp [seekBack]
  | succ n => simp [seekBack, h]

/-- If d itself is working, snapping forward is the identity. -/
theorem ensureWorkingDayForward_of_working (hs : List Int) (d : Int)
    (h : isWorkingDay hs d = true) : ensureWorkingDayForward hs d = d := by
  unfold ensureWorkingDayForward
  cases hfuel : workFuel hs with
  | zero => simp [seekForward]
  | succ n => simp [seekForward, h]

/-- For a working day d, the previous working day of the next working day of d
is d again. -/
theorem prev_next_cancel (hs : List Int) (d : Int) (h : isWorkingDay hs d = true) :
    prevWorkingDay hs (nextWorkingDay hs d) = d := by
  obtain ⟨hn1, hn2, hn3⟩ := nextWorkingDay_spec hs d
  obtain ⟨hp1, hp2, hp3⟩ := prevWorkingDay_spec hs (nextWorkingDay hs d)
  rcases lt_trichotomy (prevWorkingDay hs (nextWorkingDay hs d)) d with hlt | heq | hgt
  · exact absurd h (by simpa using hp3 d hlt hn2)
  · exact heq
  · exact absurd hp1 (by simp [hn3 _ hgt hp2])

/-- For a working day d, the next working day of the previous working day of d
is d again. -/
theorem next_prev_cancel (hs : List Int) (d : Int) (h : isWorkingDay hs d = true) :
    nextWorkingDay hs (prevWorkingDay hs d) = d := by
  obtain ⟨hp1, hp2, hp3⟩ := prevWorkingDay_spec hs d
  obtain ⟨hn1, hn2, hn3⟩ := nextWorkingDay_spec hs (prevWorkingDay hs d)
  rcases lt_trichotomy (nextWorkingDay hs (prevWorkingDay hs d)) d with hlt | heq | hgt
  · exact absurd hn1 (by simp [hp3 _ hn2 hlt])
  · exact heq
  · exact absurd h (by simpa using hn3 d hp2 hgt)

/-- The subtraction loop commutes to the outside. -/
theorem subBusinessAux_succ (hs : List Int) :
    ∀ n : Nat, ∀ d : Int,
      subBusinessAux hs (n + 1) d = prevWorkingDay hs (subBusinessAux hs n d) := by
  intro n
  induction n with
  | zero => intro d; rfl
  | succ m ih =>
    intro d
    have h1 : subBusinessAux hs (m + 1 + 1) d = subBusinessAux hs (m + 1) (prevWorkingDay hs d) :=
      rfl
    rw [h1, ih]
    rfl

/-- The addition loop commutes to the outside. -/
theorem addBusinessAux_succ (hs : List Int) :
    ∀ n : Nat, ∀ d : Int,
      addBusinessAux hs (n + 1) d = nextWorkingDay hs (addBusinessAux hs n d) := by
  intro n
  induction n with
  | zero => intro d; rfl
  | succ m ih =>
    intro d
    have h1 : addBusinessAux hs (m + 1 + 1) d = addBusinessAux hs (m + 1) (nextWorkingDay hs d) :=
      rfl
    rw [h1, ih]
    rfl

/-- Subtracting business days never increases the day. -/
theorem subBusinessAux_le (hs : List Int) :
    ∀ n : Nat, ∀ d : Int, subBusinessAux hs n d ≤ d := by
  intro n
  induction n with
  | zero => intro d; simp [subBusinessAux]
  | succ m ih =>
    intro d
    rw [subBusinessAux_succ]
    obtain ⟨_, h2, _⟩ := prevWorkingDay_spec hs (subBusinessAux hs m d)
    exact le_trans (le_of_lt h2) (ih d)

/-- Adding business days never decreases the day. -/
theorem addBusinessAux_ge (hs : List Int) :
    ∀ n : Nat, ∀ d : Int, d ≤ addBusinessAux hs n d := by
  intro n
  induction n with
  | zero => intro d; simp [addBusinessAux]
  | succ m ih =>
    intro d
    rw [addBusinessAux_succ]
    obtain ⟨_, h2, _⟩ := nextWorkingDay_spec hs (addBusinessAux hs m d)
    exact le_trans (ih d) (le_of_lt h2)

/-- After at least one step of the addition loop the result is a working day. -/
theorem addBusinessAux_working (hs : List Int) (n : Nat) (d : Int) :
    isWorkingDay hs (addBusinessAux hs (n + 1) d) = true := by
  rw [addBusinessAux_succ]
  exact (nextWorkingDay_spec hs (addBusinessAux hs n d)).1

/-- Round trip of the loop counters: subtracting n business days after adding
n business days to a working day returns the start. -/
theorem subAux_addAux_cancel (hs : List Int) :
    ∀ n : Nat, ∀ d : Int, isWorkingDay hs d = true →
      subBusinessAux hs n (addBusinessAux hs n d) = d := by
  intro n
  induction n with
  | zero => intro d _; rfl
  | succ m ih =>
    intro d hd
    have h1 : addBusinessAux hs (m + 1) d = addBusinessAux hs m (nextWorkingDay hs d) := rfl
    rw [h1, subBusinessAux_succ, ih (nextWorkingDay hs d) (nextWorkingDay_spec hs d).1]
    exact prev_next_cancel hs d hd

/-- Number of working days among a + 1, a + 2, ..., a + m. -/
def countWorkingIn (hs : List Int) (a : Int) : Nat → Nat
  | 0 => 0
  | m + 1 => countWorkingIn hs a m + (if isWorkingDay hs (a + (m + 1)) = true then 1 else 0)

theorem countWorkingIn_add (hs : List Int) (a : Int) :
    ∀ k m : Nat, countWorkingIn hs a (m + k) =
      countWorkingIn hs a m + countWorkingIn hs (a + m) k := by
  intro k
  induction k with
  | zero => intro m; simp [countWorkingIn]
  | succ j ih =>
    intro m
    have h1 : m + (j + 1) = (m + j) + 1 := by omega
    rw [h1]
    show countWorkingIn hs a (m + j) + _ = _
    rw [ih m]
    show _ = countWorkingIn hs a m + (countWorkingIn hs (a + m) j + _)
    have h2 : a + ((m + j : Nat) + 1 : Int) = (a + m) + ((j : Int) + 1) := by push_cast; ring
    rw [h2]
    omega

theorem countWorkingIn_zero_of_none (hs : List Int) (a : Int) :
    ∀ m : Nat, (∀ j : Nat, 1 ≤ j → j ≤ m → isWorkingDay hs (a + j) = false) →
      countWorkingIn hs a m = 0 := by
  intro m
  induction m with
  | zero => intro _; rfl
  | succ k ih =>
    intro hnone
    show countWorkingIn hs a k + _ = 0
    have h1 : countWorkingIn hs a k = 0 := ih (fun j hj1 hj2 => hnone j hj1 (by omega))
    have h2 : isWorkingDay hs (a + ((k : Int) + 1)) = false := by
      have := hnone (k + 1) (by omega) (by omega)
      have hcast : a + ((k + 1 : Nat) : Int) = a + ((k : Int) + 1) := by push_cast; ring
      rwa [hcast] at this
    simp [h1, h2]

/-- The working days in the half-open interval (d, nextWorkingDay d] count 1. -/
theorem countWorkingIn_next (hs : List Int) (d : Int) :
    countWorkingIn hs d (nextWorkingDay hs d - d).toNat = 1 := by
  obtain ⟨hw, hlt, hbetween⟩ := nextWorkingDay_spec hs d
  have hpos : 1 ≤ (nextWorkingDay hs d - d).toNat := by omega
  obtain ⟨k, hk⟩ : ∃ k : Nat, (nextWorkingDay hs d - d).toNat = k + 1 :=
    ⟨(nextWorkingDay hs d - d).toNat - 1, by omega⟩
  rw [hk]
  show countWorkingIn hs d k + _ = 1
  have h1 : countWorkingIn hs d k = 0 := by
    apply countWorkingIn_zero_of_none
    intro j hj1 hj2
    apply hbetween
    · omega
    · omega
  have h2 : d + ((k : Int) + 1) = nextWorkingDay hs d := by omega
  simp [h1, h2, hw]

/-- The half-open interval (d, addBusinessAux n d] contains exactly n working
days. -/
theorem countWorkingIn_addAux (hs : List Int) :
    ∀ n : Nat, ∀ d : Int, countWorkingIn hs d (addBusinessAux hs n d - d).toNat = n := by
  intro n
  induction n with
  | zero => intro d; show countWorkingIn hs d (d - d).toNat = 0; simp [countWorkingIn]
  | succ m ih =>
    intro d
    rw [addBusinessAux_succ]
    have hge : d ≤ addBusinessAux hs m d := addBusinessAux_ge hs m d
    have hlt : addBusinessAux hs m d < nextWorkingDay hs (addBusinessAux hs m d) :=
      (nextWorkingDay_spec hs (addBusinessAux hs m d)).2.1
    have hsplit : (nextWorkingDay hs (addBusinessAux hs m d) - d).toNat =
        (addBusinessAux hs m d - d).toNat +
        (nextWorkingDay hs (addBusinessAux hs m d) - addBusinessAux hs m d).toNat := by
      omega
    rw [hsplit, countWorkingIn_add]
    have hmid : d + ((addBusinessAux hs m d - d).toNat : Int) = addBusinessAux hs m d := by
      omega
    rw [hmid, ih d, countWorkingIn_next]

-- ===================================================================
-- Data model
-- ===================================================================

/-- A phase record, as stored in TimelineData.phases.  Optional manual dates
model absent or empty date strings. -/
structure Phase where
  id : String
  name : String
  days : Int
  isParallel : Bool
  manualStartDate : Option Int
  manualEndDate : Option Int
deriving DecidableEq, Repr

/-- TimelineData from src/script.js.  anchorDate is modelled as a valid
date-only string, hence always truthy; anchorType and sortOrder are kept as
raw strings as in the source. -/
structure TimelineData where
  anchorDate : Int
  anchorPhaseId : String
  anchorType : String
  sortOrder : String
  phases : List Phase
deriving DecidableEq, Repr

/-- One element of the result array of calculateSchedule: the spread of the
phase fields plus resolved startDate and endDate. -/
structure ScheduleItem where
  id : String
  name : String
  days : Int
  isParallel : Bool
  manualStartDate : Option Int
  manualEndDate : Option Int
  startDate : Int
  endDate : Int
deriving DecidableEq, Repr

/-- A timeline record of appState.timelines. -/
structure Timeline where
  id : String
  name : String
  data : TimelineData
deriving DecidableEq, Repr

/-- The global application state (V3 shape). -/
structure AppState where
  activeTimelineId : String
  globalHolidays : List Int
  timelines : List Timeline
deriving DecidableEq, Repr

-- ===================================================================
-- Schedule engine (calculateSchedule)
-- ===================================================================

/-- getDaysDiff from src/script.js.  Both arguments are midnights, so the
floor of the millisecond quotient is the exact difference in days. -/
def getDaysDiff (s e : Int) : Int := (e - s) + 1

/-- The result item of a sequential phase (or of the anchor): the phase spread
with resolved dates, days kept as stored. -/
def seqItem (p : Phase) (s e : Int) : ScheduleItem :=
  { id := p.id, name := p.name, days := p.days, isParallel := p.isParallel,
    manualStartDate := p.manualStartDate, manualEndDate := p.manualEndDate,
    startDate := s, endDate := e }

/-- The processParallel helper of calculateSchedule: resolve the span of a
parallel phase from its own manual dates.  A missing (or empty, hence falsy)
manual start falls back to the anchor date; a missing manual end falls back
to addBusinessDays(start, days - 1).  days is recomputed with getDaysDiff. -/
def processParallel (hs : List Int) (anchorDate : Int) (p : Phase) : ScheduleItem :=
  let s := match p.manualStartDate with
    | some v => v
    | none => anchorDate
  let e := match p.manualEndDate with
    | some v => v
    | none => addBusinessDays hs s (p.days - 1)
  { id := p.id, name := p.name, days := getDaysDiff s e, isParallel := p.isParallel,
    manualStartDate := p.manualStartDate, manualEndDate := p.manualEndDate,
    startDate := s, endDate := e }

/-- The preceding chain of calculateSchedule.  The input list holds the phases
before the anchor in processing order, that is, reversed: nearest to the
anchor first.  The Int argument is the running reference date nextRefDate,
initially the anchor start.  Parallel phases neither consume nor update it. -/
def backChain (hs : List Int) (anchorDate : Int) : Int → List Phase → List ScheduleItem
  | _, [] => []
  | ref, p :: rest =>
    if p.isParallel then
      processParallel hs anchorDate p :: backChain hs anchorDate ref rest
    else
      let e := subBusinessDays hs ref 1
      let s := subBusinessDays hs e (max 0 (p.days - 1))
      seqItem p s e :: backChain hs anchorDate s rest

/-- The succeeding chain of calculateSchedule, running reference prevRefDate
initially the anchor end. -/
def forwardChain (hs : List Int) (anchorDate : Int) : Int → List Phase → List ScheduleItem
  | _, [] => []
  | ref, p :: rest =>
    if p.isParallel then
      processParallel hs anchorDate p :: forwardChain hs anchorDate ref rest
    else
      let s := addBusinessDays hs ref 1
      let e := addBusinessDays hs s (max 0 (p.days - 1))
      seqItem p s e :: forwardChain hs anchorDate e rest

/-- The anchor span resolution of calculateSchedule. -/
def anchorSpan (hs : List Int) (anchorDate : Int) (anchorType : String) (days : Int) :
    Int × Int :=
  if anchorType == "end" then
    let e := ensureWorkingDayBackward hs anchorDate
    (subBusinessDays hs e (max 0 (days - 1)), e)
  else
    let s := ensureWorkingDayForward hs anchorDate
    (s, addBusinessDays hs s (max 0 (days - 1)))

/-- The body of calculateSchedule once the anchor index is known: anchor item
in place, preceding chain walked outward from anchorIndex - 1 down to 0 (and
written back in index order, hence the reverse), succeeding chain walked from
anchorIndex + 1 up.  The none branch is unreachable: callers only pass an
index delivered by the anchor lookup. -/
def scheduleResults (hs : List Int) (d : TimelineData) (i : Nat) : List ScheduleItem :=
  match d.phases[i]? with
  | none => []
  | some a =>
    let span := anchorSpan hs d.anchorDate d.anchorType a.days
    (backChain hs d.anchorDate span.1 (d.phases.take i).reverse).reverse
      ++ seqItem a span.1 span.2
      :: forwardChain hs d.anchorDate span.2 (d.phases.drop (i + 1))

/-- The JavaScript findIndex over the phase list, as an optional index. -/
def findPhaseIdx (pid : String) : List Phase → Option Nat
  | [] => none
  | p :: rest =>
    if p.id == pid then some 0 else (findPhaseIdx pid rest).map (· + 1)

/-- calculateSchedule with its self-correcting retry made explicit.  The
source repoints anchorPhaseId at the first phase and calls itself again when
the anchor lookup fails on a non-empty list; the retried lookup necessarily
succeeds at index 0, so a fuel of 2 always suffices and the zero-fuel branch
is unreachable.  The returned pair is (result array or null, the state of the
TimelineData after the call: the self-heal is its only write). -/
def calculateScheduleAux (hs : List Int) :
    Nat → TimelineData → Option (List ScheduleItem) × TimelineData
  | 0, d => (none, d)
  | fuel + 1, d =>
    match d.phases with
    | [] => (none, d)
    | p0 :: _ =>
      match findPhaseIdx d.anchorPhaseId d.phases with
      | some i => (some (scheduleResults hs d i), d)
      | none => calculateScheduleAux hs fuel { d with anchorPhaseId := p0.id }

/-- calculateSchedule from src/script.js, over an explicit holiday list.  The
guard on a falsy anchorDate is dropped: anchorDate is modelled as a valid
date string, which is always truthy. -/
def calculateSchedule (hs : List Int) (d : TimelineData) :
    Option (List ScheduleItem) × TimelineData :=
  calculateScheduleAux hs 2 d

-- ===================================================================
-- Engine lemmas
-- ===================================================================

theorem findPhaseIdx_eq_none (pid : String) :
    ∀ l : List Phase, findPhaseIdx pid l = none ↔ ∀ p ∈ l, (p.id == pid) = false := by
  intro l
  induction l with
  | nil => simp [findPhaseIdx]
  | cons q rest ih =>
    cases hq : (q.id == pid) with
    | true =>
      constructor
      · intro h
        rw [findPhaseIdx, hq] at h
        simp at h
      · intro h
        have h1 := h q (by simp)
        rw [hq] at h1
        simp at h1
    | false =>
      constructor
      · intro h p hp
        rcases List.mem_cons.mp hp with hp1 | hp1
        · subst hp1; exact hq
        · have h2 : findPhaseIdx pid rest = none := by
            rw [findPhaseIdx, hq] at h
            simpa using h
          exact ih.mp h2 p hp1
      · intro h
        have h2 : findPhaseIdx pid rest = none :=
          ih.mpr fun p hp => h p (List.mem_cons.mpr (Or.inr hp))
        rw [findPhaseIdx, hq]
        simp [h2]

theorem findPhaseIdx_self (p0 : Phase) (l : List Phase) :
    findPhaseIdx p0.id (p0 :: l) = some 0 := by
  simp [findPhaseIdx]

theorem findPhaseIdx_append (pid : String) (a : Phase) (post : List Phase)
    (ha : (a.id == pid) = true) :
    ∀ pre : List Phase, (∀ p ∈ pre, (p.id == pid) = false) →
      findPhaseIdx pid (pre ++ a :: post) = some pre.length := by
  intro pre
  induction pre with
  | nil => intro _; simp [findPhaseIdx, ha]
  | cons q rest ih =>
    intro h
    have hq : (q.id == pid) = false := h q (by simp)
    have hrest := ih fun p hp => h p (by simp [hp])
    simp [findPhaseIdx, hq, hrest]

theorem calculateSchedule_nil (hs : List Int) (d : TimelineData) (h : d.phases = []) :
    calculateSchedule hs d = (none, d) := by
  simp [calculateSchedule, calculateScheduleAux, h]

theorem calculateSchedule_found (hs : List Int) (d : TimelineData) (i : Nat)
    (h : findPhaseIdx d.anchorPhaseId d.phases = some i) :
    calculateSchedule hs d = (some (scheduleResults hs d i), d) := by
  cases hp : d.phases with
  | nil => rw [hp] at h; simp [findPhaseIdx] at h
  | cons p0 rest =>
    have h1 : findPhaseIdx d.anchorPhaseId (p0 :: rest) = some i := by rw [← hp]; exact h
    simp [calculateSchedule, calculateScheduleAux, hp, h1]

theorem calculateSchedule_stale (hs : List Int) (d : TimelineData) (p0 : Phase)
    (rest : List Phase) (hp : d.phases = p0 :: rest)
    (h : findPhaseIdx d.anchorPhaseId d.phases = none) :
    calculateSchedule hs d =
      (some (scheduleResults hs { d with anchorPhaseId := p0.id } 0),
        { d with anchorPhaseId := p0.id }) := by
  have h1 : findPhaseIdx d.anchorPhaseId (p0 :: rest) = none := by rw [← hp]; exact h
  simp [calculateSchedule, calculateScheduleAux, hp, h1, findPhaseIdx_self]

/-- C4.  The Schedule Engine is pure and idempotent in the shallow embedding:
the pair returned by calculateSchedule is (result, post-call TimelineData);
running the engine again on the post-call data returns the identical result
and writes nothing further; the post-call data keeps the phase list (with
every phase field) and all other fields unchanged, except that anchorPhaseId
is repointed at the first phase exactly when the stored id matches no
phase. -/
theorem calculateSchedule_pure_idempotent (hs : List Int) (d : TimelineData) :
    calculateSchedule hs ((calculateSchedule hs d).2) =
      ((calculateSchedule hs d).1, (calculateSchedule hs d).2) ∧
    (calculateSchedule hs d).2.phases = d.phases ∧
    (calculateSchedule hs d).2.anchorDate = d.anchorDate ∧
    (calculateSchedule hs d).2.anchorType = d.anchorType ∧
    (calculateSchedule hs d).2.sortOrder = d.sortOrder ∧
    ((calculateSchedule hs d).2.anchorPhaseId = d.anchorPhaseId ∨
      ((∀ p ∈ d.phases, (p.id == d.anchorPhaseId) = false) ∧
        ∃ p0 rest, d.phases = p0 :: rest ∧
          (calculateSchedule hs d).2.anchorPhaseId = p0.id)) := by
  cases hp : d.phases with
  | nil =>
    have h := calculateSchedule_nil hs d hp
    rw [h]
    exact ⟨h, hp, rfl, rfl, rfl, Or.inl rfl⟩
  | cons p0 rest =>
    cases hfind : findPhaseIdx d.anchorPhaseId d.phases with
    | some i =>
      have h := calculateSchedule_found hs d i hfind
      rw [h]
      exact ⟨calculateSchedule_found hs d i hfind, hp, rfl, rfl, rfl, Or.inl rfl⟩
    | none =>
      have h := calculateSchedule_stale hs d p0 rest hp hfind
      rw [h]
      have hfind2 : findPhaseIdx
          ({ d with anchorPhaseId := p0.id } : TimelineData).anchorPhaseId
          ({ d with anchorPhaseId := p0.id } : TimelineData).phases = some 0 := by
        show findPhaseIdx p0.id d.phases = some 0
        rw [hp]
        exact findPhaseIdx_self p0 rest
      refine ⟨calculateSchedule_found hs _ 0 hfind2, hp, rfl, rfl, rfl, Or.inr ?_⟩
      refine ⟨?_, p0, rest, rfl, rfl⟩
      rw [← hp]
      exact (findPhaseIdx_eq_none d.anchorPhaseId d.phases).mp hfind

/-- C5.  On a non-empty phase list whose anchorPhaseId matches no phase, the
engine self-heals: it returns the same result as if anchorPhaseId were the
first phase id, its post-call state is exactly the input with anchorPhaseId
repointed at the first phase id, and it still produces a result array (it
does not fail). -/
theorem calculateSchedule_anchor_selfheal (hs : List Int) (d : TimelineData)
    (p0 : Phase) (rest : List Phase) (hp : d.phases = p0 :: rest)
    (hstale : ∀ p ∈ d.phases, (p.id == d.anchorPhaseId) = false) :
    calculateSchedule hs d =
      ((calculateSchedule hs { d with anchorPhaseId := p0.id }).1,
        { d with anchorPhaseId := p0.id }) ∧
    ∃ res, (calculateSchedule hs d).1 = some res := by
  have hfind : findPhaseIdx d.anchorPhaseId d.phases = none :=
    (findPhaseIdx_eq_none d.anchorPhaseId d.phases).mpr hstale
  have h := calculateSchedule_stale hs d p0 rest hp hfind
  have hfind2 : findPhaseIdx
      ({ d with anchorPhaseId := p0.id } : TimelineData).anchorPhaseId
      ({ d with anchorPhaseId := p0.id } : TimelineData).phases = some 0 := by
    show findPhaseIdx p0.id d.phases = some 0
    rw [hp]
    exact findPhaseIdx_self p0 rest
  have h2 := calculateSchedule_found hs { d with anchorPhaseId := p0.id } 0 hfind2
  rw [h, h2]
  exact ⟨rfl, _, rfl⟩

/-- Witness for C5 at a concrete stale-anchor timeline. -/
theorem calculateSchedule_anchor_selfheal_witness :
    (calculateSchedule []
        { anchorDate := 0, anchorPhaseId := "zz", anchorType := "end",
          sortOrder := "asc",
          phases := [{ id := "1", name := "a", days := 2, isParallel := false,
                        manualStartDate := none, manualEndDate := none }] }).2.anchorPhaseId
      = "1" := by
  have h := calculateSchedule_anchor_selfheal []
    { anchorDate := 0, anchorPhaseId := "zz", anchorType := "end", sortOrder := "asc",
      phases := [{ id := "1", name := "a", days := 2, isParallel := false,
                    manualStartDate := none, manualEndDate := none }] }
    { id := "1", name := "a", days := 2, isParallel := false,
      manualStartDate := none, manualEndDate := none }
    [] rfl (by decide)
  rw [h.1]

/-- C6 counterexample.  On an empty phase list the engine does not return an
empty result array: it returns the null marker (modelled none). -/
theorem calculateSchedule_empty_cex :
    (calculateSchedule []
        { anchorDate := 0, anchorPhaseId := "1", anchorType := "end",
          sortOrder := "asc", phases := [] }).1 ≠ some [] ∧
    (calculateSchedule []
        { anchorDate := 0, anchorPhaseId := "1", anchorType := "end",
          sortOrder := "asc", phases := [] }).1 = none := by
  decide

/-- C6 amended.  On an empty phase list the engine degrades gracefully: it
returns null (modelled as none, the distinguished no-result marker its
callers test for) and leaves the state untouched; it does not raise. -/
theorem calculateSchedule_empty (hs : List Int) (d : TimelineData)
    (h : d.phases = []) : calculateSchedule hs d = (none, d) :=
  calculateSchedule_nil hs d h

/-- Witness for C6 amended at a concrete empty timeline. -/
theorem calculateSchedule_empty_witness :
    calculateSchedule []
        { anchorDate := 0, anchorPhaseId := "1", anchorType := "end",
          sortOrder := "asc", phases := [] }
      = (none,
        { anchorDate := 0, anchorPhaseId := "1", anchorType := "end",
          sortOrder := "asc", phases := [] }) :=
  calculateSchedule_empty []
    { anchorDate := 0, anchorPhaseId := "1", anchorType := "end",
      sortOrder := "asc", phases := [] } rfl

-- ===================================================================
-- C9: business-day arithmetic round trip
-- ===================================================================

/-- C9 counterexample.  0 is a working day (a Thursday) with no holidays, and
addBusinessDays 0 1 = 1, but the number of working days strictly between the
endpoints 0 and 1 is 0, not n = 1. -/
theorem business_roundtrip_cex :
    isWorkingDay [] 0 = true ∧
    addBusinessDays [] 0 1 = 1 ∧
    countWorkingIn [] 0 (addBusinessDays [] 0 1 - 0 - 1).toNat = 0 ∧
    (0 : Nat) ≠ 1 := by
  refine ⟨by decide, ?_, ?_, by decide⟩
  · show addBusinessAux [] 1 0 = 1
    decide
  · show countWorkingIn [] 0 (addBusinessAux [] 1 0 - 0 - 1).toNat = 0
    decide

/-- C9 amended.  For every working day d and n ≥ 0 with no holidays
configured, subBusinessDays (addBusinessDays d n) n = d, and the number of
working days in the half-open interval (d, addBusinessDays d n] equals n
(strictly between the endpoints there are n - 1 working days when n ≥ 1). -/
theorem business_roundtrip (d n : Int) (hn : 0 ≤ n) (hd : isWorkingDay [] d = true) :
    subBusinessDays [] (addBusinessDays [] d n) n = d ∧
    (countWorkingIn [] d (addBusinessDays [] d n - d).toNat : Int) = n := by
  constructor
  · exact subAux_addAux_cancel [] n.toNat d hd
  · rw [show addBusinessDays [] d n = addBusinessAux [] n.toNat d from rfl]
    rw [countWorkingIn_addAux [] n.toNat d]
    omega

/-- Witness for C9 amended: d = 0 (a Thursday), n = 3. -/
theorem business_roundtrip_witness :
    subBusinessDays [] (addBusinessDays [] 0 3) 3 = 0 ∧
    (countWorkingIn [] 0 (addBusinessDays [] 0 3 - 0).toNat : Int) = 3 :=
  business_roundtrip 0 3 (by decide) (by decide)

-- ===================================================================
-- Chain structure (C1, C7)
-- ===================================================================

/-- A list of spans chained strictly downward from the reference r: each span
is valid, ends strictly below the incoming reference on a working day, with no
working day skipped in between (working-day adjacency), and the rest chains
from its start. -/
def descChain (hs : List Int) : Int → List ScheduleItem → Prop
  | _, [] => True
  | r, it :: rest =>
    it.startDate ≤ it.endDate ∧ it.endDate < r ∧
    isWorkingDay hs it.endDate = true ∧
    (∀ m : Int, it.endDate < m → m < r → isWorkingDay hs m = false) ∧
    descChain hs it.startDate rest

/-- A list of spans chained strictly upward from the reference r. -/
def ascChain (hs : List Int) : Int → List ScheduleItem → Prop
  | _, [] => True
  | r, it :: rest =>
    it.startDate ≤ it.endDate ∧ r < it.startDate ∧
    isWorkingDay hs it.startDate = true ∧
    (∀ m : Int, r < m → m < it.startDate → isWorkingDay hs m = false) ∧
    ascChain hs it.endDate rest

theorem subBusinessDays_one (hs : List Int) (r : Int) :
    subBusinessDays hs r 1 = prevWorkingDay hs r := rfl

theorem addBusinessDays_one (hs : List Int) (r : Int) :
    addBusinessDays hs r 1 = nextWorkingDay hs r := rfl

theorem subBusinessDays_le (hs : List Int) (r n : Int) : subBusinessDays hs r n ≤ r :=
  subBusinessAux_le hs n.toNat r

theorem addBusinessDays_ge (hs : List Int) (r n : Int) : r ≤ addBusinessDays hs r n :=
  addBusinessAux_ge hs n.toNat r

/-- The sequential items of the preceding chain, kept in processing order
(outward from the anchor), form a strictly descending, working-day-adjacent
span chain from the initial reference. -/
theorem backChain_desc (hs : List Int) (aD : Int) :
    ∀ ps : List Phase, ∀ r : Int,
      descChain hs r ((backChain hs aD r ps).filter (fun it => !it.isParallel)) := by
  intro ps
  induction ps with
  | nil => intro r; simp [backChain, descChain]
  | cons p rest ih =>
    intro r
    cases hp : p.isParallel with
    | true =>
      have hitem : (processParallel hs aD p).isParallel = true := hp
      simp only [backChain, hp, if_true, List.filter_cons, hitem, Bool.not_true]
      exact ih r
    | false =>
      have hitem : (seqItem p (subBusinessDays hs (subBusinessDays hs r 1) (max 0 (p.days - 1)))
          (subBusinessDays hs r 1)).isParallel = false := hp
      simp only [backChain, hp, Bool.false_eq_true, if_false, List.filter_cons, hitem,
        Bool.not_false, descChain]
      obtain ⟨hw, hlt, hbet⟩ := prevWorkingDay_spec hs r
      rw [subBusinessDays_one] at *
      refine ⟨?_, ?_, ?_, ?_, ?_⟩
      · exact subBusinessDays_le hs (prevWorkingDay hs r) (max 0 (p.days - 1))
      · exact hlt
      · exact hw
      · exact hbet
      · exact ih _

/-- The sequential items of the succeeding chain form a strictly ascending,
working-day-adjacent span chain from the initial reference. -/
theorem forwardChain_asc (hs : List Int) (aD : Int) :
    ∀ ps : List Phase, ∀ r : Int,
      ascChain hs r ((forwardChain hs aD r ps).filter (fun it => !it.isParallel)) := by
  intro ps
  induction ps with
  | nil => intro r; simp [forwardChain, ascChain]
  | cons p rest ih =>
    intro r
    cases hp : p.isParallel with
    | true =>
      have hitem : (processParallel hs aD p).isParallel = true := hp
      simp only [forwardChain, hp, if_true, List.filter_cons, hitem, Bool.not_true]
      exact ih r
    | false =>
      have hitem : (seqItem p (addBusinessDays hs r 1)
          (addBusinessDays hs (addBusinessDays hs r 1) (max 0 (p.days - 1)))).isParallel
            = false := hp
      simp only [forwardChain, hp, Bool.false_eq_true, if_false, List.filter_cons, hitem,
        Bool.not_false, ascChain]
      obtain ⟨hw, hlt, hbet⟩ := nextWorkingDay_spec hs r
      rw [addBusinessDays_one] at *
      refine ⟨?_, ?_, ?_, ?_, ?_⟩
      · exact addBusinessDays_ge hs (nextWorkingDay hs r) (max 0 (p.days - 1))
      · exact hlt
      · exact hw
      · exact hbet
      · exact ih _

/-- Parallel phases never perturb the preceding chain: filtering them out of
the input produces exactly the sequential items of the full run. -/
theorem backChain_filter (hs : List Int) (aD : Int) :
    ∀ ps : List Phase, ∀ r : Int,
      backChain hs aD r (ps.filter (fun p => !p.isParallel))
        = (backChain hs aD r ps).filter (fun it => !it.isParallel) := by
  intro ps
  induction ps with
  | nil => intro r; simp [backChain]
  | cons p rest ih =>
    intro r
    cases hp : p.isParallel with
    | true =>
      have hitem : (processParallel hs aD p).isParallel = true := hp
      simp only [backChain, hp, if_true, List.filter_cons, hitem, Bool.not_true]
      exact ih r
    | false =>
      have hitem : (seqItem p (subBusinessDays hs (subBusinessDays hs r 1) (max 0 (p.days - 1)))
          (subBusinessDays hs r 1)).isParallel = false := hp
      simp only [List.filter_cons, hp, Bool.not_false, backChain, Bool.false_eq_true,
        if_false, hitem, if_true]
      rw [ih]

/-- Parallel phases never perturb the succeeding chain. -/
theorem forwardChain_filter (hs : List Int) (aD : Int) :
    ∀ ps : List Phase, ∀ r : Int,
      forwardChain hs aD r (ps.filter (fun p => !p.isParallel))
        = (forwardChain hs aD r ps).filter (fun it => !it.isParallel) := by
  intro ps
  induction ps with
  | nil => intro r; simp [forwardChain]
  | cons p rest ih =>
    intro r
    cases hp : p.isParallel with
    | true =>
      have hitem : (processParallel hs aD p).isParallel = true := hp
      simp only [forwardChain, hp, if_true, List.filter_cons, hitem, Bool.not_true]
      exact ih r
    | false =>
      have hitem : (seqItem p (addBusinessDays hs r 1)
          (addBusinessDays hs (addBusinessDays hs r 1) (max 0 (p.days - 1)))).isParallel
            = false := hp
      simp only [List.filter_cons, hp, Bool.not_false, forwardChain, Bool.false_eq_true,
        if_false, hitem, if_true]
      rw [ih]

/-- The anchor span is always a valid span. -/
theorem anchorSpan_le (hs : List Int) (aD : Int) (at_ : String) (days : Int) :
    (anchorSpan hs aD at_ days).1 ≤ (anchorSpan hs aD at_ days).2 := by
  unfold anchorSpan
  by_cases h : (at_ == "end") = true
  · simp only [h, if_true]
    exact subBusinessDays_le hs _ _
  · have h2 : (at_ == "end") = false := by
      cases hb : at_ == "end"
      · rfl
      · exact absurd hb h
    simp only [h2, Bool.false_eq_true, if_false]
    exact addBusinessDays_ge hs _ _

theorem scheduleResults_decomp (hs : List Int) (d : TimelineData)
    (pre post : List Phase) (a : Phase) (hphases : d.phases = pre ++ a :: post) :
    scheduleResults hs d pre.length =
      (backChain hs d.anchorDate (anchorSpan hs d.anchorDate d.anchorType a.days).1
          pre.reverse).reverse
        ++ seqItem a (anchorSpan hs d.anchorDate d.anchorType a.days).1
            (anchorSpan hs d.anchorDate d.anchorType a.days).2
        :: forwardChain hs d.anchorDate
            (anchorSpan hs d.anchorDate d.anchorType a.days).2 post := by
  have hget : d.phases[pre.length]? = some a := by
    rw [hphases]
    rw [List.getElem?_append_right (le_refl pre.length)]
    simp
  have htake : d.phases.take pre.length = pre := by
    rw [hphases]
    exact List.take_left pre (a :: post)
  have hdrop : d.phases.drop (pre.length + 1) = post := by
    have h1 : d.phases = (pre ++ [a]) ++ post := by rw [hphases]; simp
    have h2 : (pre ++ [a]).length = pre.length + 1 := by simp
    rw [h1, ← h2]
    exact List.drop_left (pre ++ [a]) post
  unfold scheduleResults
  rw [hget, htake, hdrop]

/-- C1.  For a timeline whose anchor phase is present and sequential and whose
phases all have positive days, the engine output is the anchor item framed by
the two chains; the anchor span is valid; the sequential items of the
preceding chain, read outward from the anchor, form a strictly descending,
non-overlapping, working-day-adjacent chain starting one working day before
the anchor start; the sequential items of the succeeding chain form the
ascending counterpart from the anchor end; and parallel phases anywhere in
the input never change the spans assigned to sequential phases (running the
chain on the sequential phases alone gives exactly the sequential items). -/
theorem chain_monotonicity (hs : List Int) (d : TimelineData)
    (pre post : List Phase) (a : Phase)
    (hphases : d.phases = pre ++ a :: post)
    (hanchor : (a.id == d.anchorPhaseId) = true)
    (hpre : ∀ p ∈ pre, (p.id == d.anchorPhaseId) = false)
    (_haseq : a.isParallel = false)
    (_hdays : ∀ p ∈ d.phases, 1 ≤ p.days) :
    calculateSchedule hs d =
      (some ((backChain hs d.anchorDate (anchorSpan hs d.anchorDate d.anchorType a.days).1
            pre.reverse).reverse
          ++ seqItem a (anchorSpan hs d.anchorDate d.anchorType a.days).1
              (anchorSpan hs d.anchorDate d.anchorType a.days).2
          :: forwardChain hs d.anchorDate
              (anchorSpan hs d.anchorDate d.anchorType a.days).2 post), d) ∧
    (anchorSpan hs d.anchorDate d.anchorType a.days).1
      ≤ (anchorSpan hs d.anchorDate d.anchorType a.days).2 ∧
    descChain hs (anchorSpan hs d.anchorDate d.anchorType a.days).1
      ((backChain hs d.anchorDate (anchorSpan hs d.anchorDate d.anchorType a.days).1
          pre.reverse).filter (fun it => !it.isParallel)) ∧
    ascChain hs (anchorSpan hs d.anchorDate d.anchorType a.days).2
      ((forwardChain hs d.anchorDate (anchorSpan hs d.anchorDate d.anchorType a.days).2
          post).filter (fun it => !it.isParallel)) ∧
    (∀ ps : List Phase, ∀ r : Int,
      backChain hs d.anchorDate r (ps.filter (fun p => !p.isParallel))
        = (backChain hs d.anchorDate r ps).filter (fun it => !it.isParallel)) ∧
    (∀ ps : List Phase, ∀ r : Int,
      forwardChain hs d.anchorDate r (ps.filter (fun p => !p.isParallel))
        = (forwardChain hs d.anchorDate r ps).filter (fun it => !it.isParallel)) := by
  have hfind : findPhaseIdx d.anchorPhaseId d.phases = some pre.length := by
    rw [hphases]
    exact findPhaseIdx_append d.anchorPhaseId a post hanchor pre hpre
  refine ⟨?_, anchorSpan_le hs d.anchorDate d.anchorType a.days, backChain_desc hs _ _ _,
    forwardChain_asc hs _ _ _, backChain_filter hs _, forwardChain_filter hs _⟩
  rw [calculateSchedule_found hs d pre.length hfind,
    scheduleResults_decomp hs d pre post a hphases]

/-- Witness for C1: a four-phase timeline with a parallel phase inside the
preceding block. -/
theorem chain_monotonicity_witness :
    (calculateSchedule []
        { anchorDate := 0, anchorPhaseId := "3", anchorType := "end", sortOrder := "asc",
          phases :=
            [{ id := "1", name := "p1", days := 2, isParallel := false,
                manualStartDate := none, manualEndDate := none },
              { id := "2", name := "p2", days := 3, isParallel := true,
                manualStartDate := some 20, manualEndDate := some 21 },
              { id := "3", name := "a", days := 1, isParallel := false,
                manualStartDate := none, manualEndDate := none },
              { id := "4", name := "q", days := 1, isParallel := false,
                manualStartDate := none, manualEndDate := none }] }).1.isSome = true := by
  have h := chain_monotonicity []
    { anchorDate := 0, anchorPhaseId := "3", anchorType := "end", sortOrder := "asc",
      phases :=
        [{ id := "1", name := "p1", days := 2, isParallel := false,
            manualStartDate := none, manualEndDate := none },
          { id := "2", name := "p2", days := 3, isParallel := true,
            manualStartDate := some 20, manualEndDate := some 21 },
          { id := "3", name := "a", days := 1, isParallel := false,
            manualStartDate := none, manualEndDate := none },
          { id := "4", name := "q", days := 1, isParallel := false,
            manualStartDate := none, manualEndDate := none }] }
    [{ id := "1", name := "p1", days := 2, isParallel := false,
        manualStartDate := none, manualEndDate := none },
      { id := "2", name := "p2", days := 3, isParallel := true,
        manualStartDate := some 20, manualEndDate := some 21 }]
    [{ id := "4", name := "q", days := 1, isParallel := false,
        manualStartDate := none, manualEndDate := none }]
    { id := "3", name := "a", days := 1, isParallel := false,
      manualStartDate := none, manualEndDate := none }
    rfl (by decide) (by decide) (by decide) (by decide)
  rw [h.1]
  rfl

-- ===================================================================
-- C7: parallel phase resolution
-- ===================================================================

/-- C7 counterexample.  In a timeline with anchor date 0, the parallel phase
with manualStartDate 11, no manualEndDate and days = 3 resolves to end date
13 = addBusinessDays 11 2, not to the anchor date 0 that the claim says a
missing manual date defaults to. -/
theorem parallel_default_cex :
    (((calculateSchedule []
        { anchorDate := 0, anchorPhaseId := "1", anchorType := "end", sortOrder := "asc",
          phases :=
            [{ id := "1", name := "a", days := 1, isParallel := false,
                manualStartDate := none, manualEndDate := none },
              { id := "2", name := "p", days := 3, isParallel := true,
                manualStartDate := some 11, manualEndDate := none }] }).1.getD [])[1]?).map
        ScheduleItem.endDate = some 13 ∧
    some (13 : Int) ≠ some (0 : Int) := by
  constructor
  · rfl
  · decide

/-- C7 amended.  A parallel phase is resolved from its own manual dates,
without consuming or updating the running reference of either chain; a
missing manual start defaults to the anchor date, but a missing manual end
defaults to addBusinessDays(start, days - 1), not to the anchor date; the
reported days is getDaysDiff of the resolved span, and when both manual dates
are present the whole item is independent of the stored days. -/
theorem parallel_phase_resolution (hs : List Int) (aD r : Int) (p : Phase)
    (rest : List Phase) (hp : p.isParallel = true) :
    backChain hs aD r (p :: rest) = processParallel hs aD p :: backChain hs aD r rest ∧
    forwardChain hs aD r (p :: rest) = processParallel hs aD p :: forwardChain hs aD r rest ∧
    (processParallel hs aD p).startDate
      = (match p.manualStartDate with | some v => v | none => aD) ∧
    (processParallel hs aD p).endDate
      = (match p.manualEndDate with
          | some v => v
          | none => addBusinessDays hs (processParallel hs aD p).startDate (p.days - 1)) ∧
    (processParallel hs aD p).days
      = getDaysDiff (processParallel hs aD p).startDate (processParallel hs aD p).endDate ∧
    (∀ s e : Int, p.manualStartDate = some s → p.manualEndDate = some e →
      ∀ n : Int, processParallel hs aD { p with days := n } = processParallel hs aD p) := by
  refine ⟨by simp [backChain, hp], by simp [forwardChain, hp], rfl, rfl, rfl, ?_⟩
  intro s e hs1 he1 n
  simp [processParallel, hs1, he1]

/-- Witness for C7 amended at a concrete parallel phase. -/
theorem parallel_phase_resolution_witness :
    backChain [] 0 5
        [{ id := "2", name := "p", days := 3, isParallel := true,
            manualStartDate := some 11, manualEndDate := some 12 }]
      = [processParallel [] 0
          { id := "2", name := "p", days := 3, isParallel := true,
            manualStartDate := some 11, manualEndDate := some 12 }] := by
  have h := parallel_phase_resolution [] 0 5
    { id := "2", name := "p", days := 3, isParallel := true,
      manualStartDate := some 11, manualEndDate := some 12 } [] rfl
  rw [h.1]
  rfl

-- ===================================================================
-- Interactive edit reconciler (applyGanttChange)
-- ===================================================================

/-- The fields of ganttDragState that applyGanttChange reads. -/
structure DragState where
  type : String
  phaseId : String
  timelineId : String
  initialDays : Int
deriving DecidableEq, Repr

/-- In-place mutation of the phase found by Array.prototype.find: the first
phase with the given id is replaced by f of itself. -/
def updatePhase (pid : String) (f : Phase → Phase) : List Phase → List Phase
  | [] => []
  | p :: rest => if p.id == pid then f p :: rest else p :: updatePhase pid f rest

/-- In-place mutation of the first timeline with the given id. -/
def updateTimeline (tid : String) (f : Timeline → Timeline) : List Timeline → List Timeline
  | [] => []
  | t :: rest => if t.id == tid then f t :: rest else t :: updateTimeline tid f rest

/-- The resize branch of applyGanttChange applied to the dragged phase:
days := max(1, initialDays + deltaDays), and for a parallel phase
manualEndDate := (manualStartDate or the anchor date) + the UNCLAMPED
newDays in calendar days — the source adds newDays, not the clamped
phase.days. -/
def resizePhase (anchorDate initialDays deltaDays : Int) (p : Phase) : Phase :=
  let newDays := initialDays + deltaDays
  let p1 := { p with days := max 1 newDays }
  if p1.isParallel then
    let startD := match p1.manualStartDate with
      | some s => s
      | none => anchorDate
    { p1 with manualEndDate := some (startD + newDays) }
  else p1

/-- Steps 1 and 2 of the non-anchor move branch: the current span of the
dragged phase, from its manual dates when it is parallel with a (truthy)
manual start, else from a fresh engine run; the returned TimelineData is the
state after the possible engine self-heal.  When the phase is parallel with a
manual start but no manual end the source builds an Invalid Date; getD 0
stands in for that NaN, and every theorem about moves assumes the data-model
invariant that such a phase carries both manual dates.  The (none, _) engine
branch is unreachable for a phase found in a non-empty phase list. -/
def moveTempSpan (hs : List Int) (d : TimelineData) (pid : String) (p : Phase) :
    (Int × Int) × TimelineData :=
  if p.isParallel && p.manualStartDate.isSome then
    ((p.manualStartDate.getD 0, p.manualEndDate.getD 0), d)
  else
    match calculateSchedule hs d with
    | (some sch, d1) =>
      match sch.find? (fun it => it.id == pid) with
      | some it => ((it.startDate, it.endDate), d1)
      | none => ((d1.anchorDate, d1.anchorDate), d1)
    | (none, d1) => ((d1.anchorDate, d1.anchorDate), d1)

/-- The collision test of the move branch: some other item of the current
schedule whose phase is sequential and not the anchor overlaps the proposed
span under the closed-interval test s1 ≤ e2 ∧ e1 ≥ s2. -/
def hasCollision (d : TimelineData) (pid : String) (pS pE : Int)
    (sch : List ScheduleItem) : Bool :=
  sch.any fun otherItem =>
    if otherItem.id == pid then false
    else
      match d.phases.find? (fun q => q.id == otherItem.id) with
      | none => false
      | some otherPhase =>
        if otherPhase.isParallel then false
        else if otherPhase.id == d.anchorPhaseId then false
        else decide (pS ≤ otherItem.endDate) && decide (otherItem.startDate ≤ pE)

/-- Step 2 of the collision check: run the engine once more on the current
data (the source would throw on a null schedule; that cannot happen for a
non-empty phase list, and getD [] stands in). -/
def moveCollides (hs : List Int) (d1 : TimelineData) (pid : String) (pS pE : Int) :
    Bool × TimelineData :=
  let r := calculateSchedule hs d1
  (hasCollision r.2 pid pS pE (r.1.getD []), r.2)

/-- The accepted-move mutation.  The source first copies the temp span into
the manual dates when promoting and then overwrites both with the proposed
span; the net effect is recorded here. -/
def promotePhase (pS pE : Int) (p : Phase) : Phase :=
  { p with isParallel := true, manualStartDate := some pS, manualEndDate := some pE }

/-- The non-anchor move branch of applyGanttChange. -/
def ganttMove (hs : List Int) (d : TimelineData) (pid : String) (p : Phase)
    (deltaDays : Int) : TimelineData :=
  let tsp := moveTempSpan hs d pid p
  let pS := tsp.1.1 + deltaDays
  let pE := tsp.1.2 + deltaDays
  let col := moveCollides hs tsp.2 pid pS pE
  if col.1 then col.2
  else { col.2 with phases := updatePhase pid (promotePhase pS pE) col.2.phases }

/-- applyGanttChange from src/script.js, as a state transformer on the whole
application state (the source mutates appState in place and reads the global
holiday list). -/
def applyGanttChange (st : AppState) (g : DragState) (deltaDays : Int) : AppState :=
  if deltaDays == 0 then st
  else
    match st.timelines.find? (fun t0 => t0.id == g.timelineId) with
    | none => st
    | some t =>
      match t.data.phases.find? (fun q => q.id == g.phaseId) with
      | none => st
      | some p =>
        let newData :=
          if g.type == "resize" then
            { t.data with phases :=
                (updatePhase g.phaseId (resizePhase t.data.anchorDate g.initialDays deltaDays)
                  t.data.phases) }
          else if g.type == "move" then
            if p.id == t.data.anchorPhaseId then
              { t.data with anchorDate := t.data.anchorDate + deltaDays }
            else ganttMove st.globalHolidays t.data g.phaseId p deltaDays
          else t.data
        { st with timelines :=
            updateTimeline g.timelineId (fun t0 => { t0 with data := newData }) st.timelines }

-- ===================================================================
-- C8: resize
-- ===================================================================

/-- A one-timeline fixture: sequential anchor phase 1, parallel phase 2 with
manual span 0..2 and stored days 3. -/
def resizeFixtureState : AppState :=
  { activeTimelineId := "T", globalHolidays := [],
    timelines :=
      [{ id := "T", name := "T",
          data :=
            { anchorDate := 0, anchorPhaseId := "1", anchorType := "end", sortOrder := "asc",
              phases :=
                [{ id := "1", name := "a", days := 1, isParallel := false,
                    manualStartDate := none, manualEndDate := none },
                  { id := "2", name := "p", days := 3, isParallel := true,
                    manualStartDate := some 0, manualEndDate := some 2 }] } }] }

/-- A resize drag of phase 2 captured with initialDays = 3. -/
def resizeFixtureDrag : DragState :=
  { type := "resize", phaseId := "2", timelineId := "T", initialDays := 3 }

/-- C8 counterexample.  Resizing the parallel phase by deltaDays = -5 stores
days = max(1, 3 - 5) = 1 but writes manualEndDate = start + (3 - 5) = -2,
not start + newDuration = 1: the source adds the unclamped newDays. -/
theorem resize_unclamped_cex :
    ((applyGanttChange resizeFixtureState resizeFixtureDrag (-5)).timelines.map
        fun t0 => t0.data.phases.map Phase.manualEndDate) = [[none, some (-2)]] ∧
    ((applyGanttChange resizeFixtureState resizeFixtureDrag (-5)).timelines.map
        fun t0 => t0.data.phases.map Phase.days) = [[1, 1]] ∧
    some (-2 : Int) ≠ some ((0 : Int) + max 1 (3 + (-5))) := by
  refine ⟨?_, ?_, by decide⟩ <;> rfl

/-- C8 amended.  A resize by deltaDays writes days := max(1,
initialDays + deltaDays) into the dragged phase; when the phase is parallel
its manualEndDate is recomputed as (manualStartDate, or the anchor date when
absent) plus the UNCLAMPED initialDays + deltaDays calendar days — which
agrees with the claimed newDuration exactly when initialDays + deltaDays
≥ 1; a sequential phase only gets the new days value. -/
theorem resize_semantics (st : AppState) (g : DragState) (δ : Int) (t : Timeline) (p : Phase)
    (htype : g.type = "resize") (hδ : δ ≠ 0)
    (ht : st.timelines.find? (fun t0 => t0.id == g.timelineId) = some t)
    (hp : t.data.phases.find? (fun q => q.id == g.phaseId) = some p) :
    applyGanttChange st g δ
      = { st with timelines :=
          (updateTimeline g.timelineId
            (fun t0 => ({ t0 with data :=
              ({ t.data with phases :=
                (updatePhase g.phaseId (resizePhase t.data.anchorDate g.initialDays δ)
                  t.data.phases) }) })) st.timelines) } ∧
    (resizePhase t.data.anchorDate g.initialDays δ p).days = max 1 (g.initialDays + δ) ∧
    (p.isParallel = true →
      (resizePhase t.data.anchorDate g.initialDays δ p).manualEndDate
        = some ((match p.manualStartDate with
            | some s => s
            | none => t.data.anchorDate) + (g.initialDays + δ))) ∧
    (p.isParallel = false →
      resizePhase t.data.anchorDate g.initialDays δ p
        = { p with days := max 1 (g.initialDays + δ) }) := by
  have h0 : (δ == 0) = false := beq_eq_false_iff_ne.mpr hδ
  refine ⟨?_, ?_, ?_, ?_⟩
  · simp only [applyGanttChange, h0, Bool.false_eq_true, if_false, ht, hp, htype]
    simp
  · cases hpar : p.isParallel <;> simp [resizePhase, hpar]
  · intro hpar
    cases hms : p.manualStartDate <;> simp [resizePhase, hpar, hms]
  · intro hpar
    simp [resizePhase, hpar]

/-- Witness for C8 amended: resize the parallel phase by +2. -/
theorem resize_semantics_witness :
    applyGanttChange resizeFixtureState resizeFixtureDrag 2
      = { resizeFixtureState with timelines :=
          (updateTimeline "2" (fun t0 => t0) resizeFixtureState.timelines) } ∨
    (resizePhase 0 3 2
        { id := "2", name := "p", days := 3, isParallel := true,
          manualStartDate := some 0, manualEndDate := some 2 }).days = max 1 (3 + 2) := by
  have h := resize_semantics resizeFixtureState resizeFixtureDrag 2
    (resizeFixtureState.timelines.headD
      { id := "", name := "", data :=
        { anchorDate := 0, anchorPhaseId := "", anchorType := "", sortOrder := "",
          phases := [] } })
    { id := "2", name := "p", days := 3, isParallel := true,
      manualStartDate := some 0, manualEndDate := some 2 }
    rfl (by decide) rfl rfl
  exact Or.inr h.2.1

-- ===================================================================
-- Generic first-match lemmas
-- ===================================================================

theorem find_first_unique {α : Type} (key : α → String) (k : String) :
    ∀ l : List α, (l.map key).Nodup → ∀ x, x ∈ l → key x = k →
      l.find? (fun y => key y == k) = some x := by
  intro l
  induction l with
  | nil => intro _ x hx; exact absurd hx (List.not_mem_nil x)
  | cons h tl ih =>
    intro hnd x hx hkey
    have hnd' : (∀ y ∈ tl, ¬ key y = key h) ∧ (tl.map key).Nodup := by simpa using hnd
    rw [List.find?_cons]
    rcases List.mem_cons.mp hx with hx1 | hx1
    · subst hx1
      simp [hkey]
    · have hne : (key h == k) = false := by
        have h1 := hnd'.1 x hx1
        simp only [beq_eq_false_iff_ne, ne_eq]
        intro heq
        exact h1 (by rw [hkey, heq])
      rw [hne]
      simp only [Bool.false_eq_true, if_false]
      exact ih hnd'.2 x hx1 hkey

theorem updateTimeline_fix (tid : String) (f : Timeline → Timeline) :
    ∀ l : List Timeline, ∀ t, l.find? (fun t0 => t0.id == tid) = some t → f t = t →
      updateTimeline tid f l = l := by
  intro l
  induction l with
  | nil => intro t h _; simp at h
  | cons h0 tl ih =>
    intro t hfind hfix
    rw [List.find?_cons] at hfind
    unfold updateTimeline
    cases hb : (h0.id == tid) with
    | true =>
      rw [hb] at hfind
      simp only [if_true] at hfind
      simp only [hb, if_true]
      have h1 : h0 = t := by simpa using hfind
      rw [h1, hfix]
    | false =>
      rw [hb] at hfind
      simp at hfind
      simp only [hb, Bool.false_eq_true, if_false]
      rw [ih t hfind hfix]

theorem updateTimeline_change (tid : String) (f : Timeline → Timeline) :
    ∀ l : List Timeline, ∀ t, l.find? (fun t0 => t0.id == tid) = some t → f t ≠ t →
      updateTimeline tid f l ≠ l := by
  intro l
  induction l with
  | nil => intro t h _; simp at h
  | cons h0 tl ih =>
    intro t hfind hfix
    rw [List.find?_cons] at hfind
    unfold updateTimeline
    cases hb : (h0.id == tid) with
    | true =>
      rw [hb] at hfind
      simp only [if_true] at hfind
      simp only [hb, if_true]
      have h1 : h0 = t := by simpa using hfind
      rw [h1]
      intro hcon
      exact hfix (List.cons.injEq _ _ _ _ ▸ hcon).1
    | false =>
      rw [hb] at hfind
      simp at hfind
      simp only [hb, Bool.false_eq_true, if_false, ne_eq, List.cons.injEq, true_and]
      exact ih t hfind hfix

theorem updatePhase_fix (pid : String) (f : Phase → Phase) :
    ∀ l : List Phase, ∀ p, l.find? (fun q => q.id == pid) = some p → f p = p →
      updatePhase pid f l = l := by
  intro l
  induction l with
  | nil => intro p h _; simp at h
  | cons h0 tl ih =>
    intro p hfind hfix
    rw [List.find?_cons] at hfind
    unfold updatePhase
    cases hb : (h0.id == pid) with
    | true =>
      rw [hb] at hfind
      simp only [if_true] at hfind
      simp only [hb, if_true]
      have h1 : h0 = p := by simpa using hfind
      rw [h1, hfix]
    | false =>
      rw [hb] at hfind
      simp at hfind
      simp only [hb, Bool.false_eq_true, if_false]
      rw [ih p hfind hfix]

theorem updatePhase_change (pid : String) (f : Phase → Phase) :
    ∀ l : List Phase, ∀ p, l.find? (fun q => q.id == pid) = some p → f p ≠ p →
      updatePhase pid f l ≠ l := by
  intro l
  induction l with
  | nil => intro p h _; simp at h
  | cons h0 tl ih =>
    intro p hfind hfix
    rw [List.find?_cons] at hfind
    unfold updatePhase
    cases hb : (h0.id == pid) with
    | true =>
      rw [hb] at hfind
      simp only [if_true] at hfind
      simp only [hb, if_true]
      have h1 : h0 = p := by simpa using hfind
      rw [h1]
      intro hcon
      exact hfix (List.cons.injEq _ _ _ _ ▸ hcon).1
    | false =>
      rw [hb] at hfind
      simp at hfind
      simp only [hb, Bool.false_eq_true, if_false, ne_eq, List.cons.injEq, true_and]
      exact ih p hfind hfix

theorem updatePhase_frame (pid : String) (f : Phase → Phase) :
    ∀ l : List Phase, ∀ j : Nat, ∀ q, l[j]? = some q → (q.id == pid) = false →
      (updatePhase pid f l)[j]? = some q := by
  intro l
  induction l with
  | nil => intro j q h _; simp at h
  | cons h0 tl ih =>
    intro j q hj hq
    unfold updatePhase
    cases hb : (h0.id == pid) with
    | true =>
      simp only [hb, if_true]
      cases j with
      | zero =>
        have h1 : h0 = q := by simpa using hj
        rw [h1] at hb
        rw [hb] at hq
        exact absurd hq (by simp)
      | succ n => simpa using hj
    | false =>
      simp only [hb, Bool.false_eq_true, if_false]
      cases j with
      | zero => simpa using hj
      | succ n =>
        have hj' : tl[n]? = some q := by simpa using hj
        simpa using ih n q hj' hq

theorem updateTimeline_frame (tid : String) (f : Timeline → Timeline) :
    ∀ l : List Timeline, ∀ j : Nat, ∀ t0, l[j]? = some t0 → (t0.id == tid) = false →
      (updateTimeline tid f l)[j]? = some t0 := by
  intro l
  induction l with
  | nil => intro j t0 h _; simp at h
  | cons h0 tl ih =>
    intro j t0 hj ht0
    unfold updateTimeline
    cases hb : (h0.id == tid) with
    | true =>
      simp only [hb, if_true]
      cases j with
      | zero =>
        have h1 : h0 = t0 := by simpa using hj
        rw [h1] at hb
        rw [hb] at ht0
        exact absurd ht0 (by simp)
      | succ n => simpa using hj
    | false =>
      simp only [hb, Bool.false_eq_true, if_false]
      cases j with
      | zero => simpa using hj
      | succ n =>
        have hj' : tl[n]? = some t0 := by simpa using hj
        simpa using ih n t0 hj' ht0

-- ===================================================================
-- Engine output and phase list correspondence
-- ===================================================================

theorem backChain_map_id (hs : List Int) (aD : Int) :
    ∀ ps : List Phase, ∀ r : Int,
      (backChain hs aD r ps).map ScheduleItem.id = ps.map Phase.id := by
  intro ps
  induction ps with
  | nil => intro r; rfl
  | cons p rest ih =>
    intro r
    cases hp : p.isParallel with
    | true => simp only [backChain, hp, if_true, List.map_cons, ih]; rfl
    | false =>
      simp only [backChain, hp, Bool.false_eq_true, if_false, List.map_cons, ih]
      rfl

theorem forwardChain_map_id (hs : List Int) (aD : Int) :
    ∀ ps : List Phase, ∀ r : Int,
      (forwardChain hs aD r ps).map ScheduleItem.id = ps.map Phase.id := by
  intro ps
  induction ps with
  | nil => intro r; rfl
  | cons p rest ih =>
    intro r
    cases hp : p.isParallel with
    | true => simp only [forwardChain, hp, if_true, List.map_cons, ih]; rfl
    | false =>
      simp only [forwardChain, hp, Bool.false_eq_true, if_false, List.map_cons, ih]
      rfl

theorem backChain_corr (hs : List Int) (aD : Int) :
    ∀ ps : List Phase, ∀ r : Int, ∀ it ∈ backChain hs aD r ps,
      ∃ q ∈ ps, it.id = q.id ∧ it.isParallel = q.isParallel := by
  intro ps
  induction ps with
  | nil => intro r it hit; simp [backChain] at hit
  | cons p rest ih =>
    intro r it hit
    cases hp : p.isParallel with
    | true =>
      rw [backChain, hp] at hit
      simp only [if_true] at hit
      rcases List.mem_cons.mp hit with h1 | h1
      · exact ⟨p, by simp, by rw [h1]; exact ⟨rfl, rfl⟩⟩
      · obtain ⟨q, hq, hc⟩ := ih r it h1
        exact ⟨q, by simp [hq], hc⟩
    | false =>
      rw [backChain, hp] at hit
      simp only [Bool.false_eq_true, if_false] at hit
      rcases List.mem_cons.mp hit with h1 | h1
      · exact ⟨p, by simp, by rw [h1]; exact ⟨rfl, rfl⟩⟩
      · obtain ⟨q, hq, hc⟩ := ih _ it h1
        exact ⟨q, by simp [hq], hc⟩

theorem forwardChain_corr (hs : List Int) (aD : Int) :
    ∀ ps : List Phase, ∀ r : Int, ∀ it ∈ forwardChain hs aD r ps,
      ∃ q ∈ ps, it.id = q.id ∧ it.isParallel = q.isParallel := by
  intro ps
  induction ps with
  | nil => intro r it hit; simp [forwardChain] at hit
  | cons p rest ih =>
    intro r it hit
    cases hp : p.isParallel with
    | true =>
      rw [forwardChain, hp] at hit
      simp only [if_true] at hit
      rcases List.mem_cons.mp hit with h1 | h1
      · exact ⟨p, by simp, by rw [h1]; exact ⟨rfl, rfl⟩⟩
      · obtain ⟨q, hq, hc⟩ := ih r it h1
        exact ⟨q, by simp [hq], hc⟩
    | false =>
      rw [forwardChain, hp] at hit
      simp only [Bool.false_eq_true, if_false] at hit
      rcases List.mem_cons.mp hit with h1 | h1
      · exact ⟨p, by simp, by rw [h1]; exact ⟨rfl, rfl⟩⟩
      · obtain ⟨q, hq, hc⟩ := ih _ it h1
        exact ⟨q, by simp [hq], hc⟩

theorem backChain_parallel_mem (hs : List Int) (aD : Int) :
    ∀ ps : List Phase, ∀ r : Int, ∀ q ∈ ps, q.isParallel = true →
      processParallel hs aD q ∈ backChain hs aD r ps := by
  intro ps
  induction ps with
  | nil => intro r q hq _; simp at hq
  | cons p rest ih =>
    intro r q hq hpar
    rcases List.mem_cons.mp hq with h1 | h1
    · subst h1
      rw [backChain, hpar]
      simp
    · cases hp : p.isParallel with
      | true =>
        rw [backChain, hp]
        simp only [if_true]
        exact List.mem_cons.mpr (Or.inr (ih r q h1 hpar))
      | false =>
        rw [backChain, hp]
        simp only [Bool.false_eq_true, if_false]
        exact List.mem_cons.mpr (Or.inr (ih _ q h1 hpar))

theorem forwardChain_parallel_mem (hs : List Int) (aD : Int) :
    ∀ ps : List Phase, ∀ r : Int, ∀ q ∈ ps, q.isParallel = true →
      processParallel hs aD q ∈ forwardChain hs aD r ps := by
  intro ps
  induction ps with
  | nil => intro r q hq _; simp at hq
  | cons p rest ih =>
    intro r q hq hpar
    rcases List.mem_cons.mp hq with h1 | h1
    · subst h1
      rw [forwardChain, hpar]
      simp
    · cases hp : p.isParallel with
      | true =>
        rw [forwardChain, hp]
        simp only [if_true]
        exact List.mem_cons.mpr (Or.inr (ih r q h1 hpar))
      | false =>
        rw [forwardChain, hp]
        simp only [Bool.false_eq_true, if_false]
        exact List.mem_cons.mpr (Or.inr (ih _ q h1 hpar))

theorem scheduleResults_map_id (hs : List Int) (d : TimelineData)
    (pre post : List Phase) (a : Phase) (hphases : d.phases = pre ++ a :: post) :
    (scheduleResults hs d pre.length).map ScheduleItem.id = d.phases.map Phase.id := by
  rw [scheduleResults_decomp hs d pre post a hphases, hphases]
  simp only [List.map_append, List.map_cons, List.map_reverse, backChain_map_id,
    forwardChain_map_id, List.reverse_reverse]
  rfl

theorem scheduleResults_corr (hs : List Int) (d : TimelineData)
    (pre post : List Phase) (a : Phase) (hphases : d.phases = pre ++ a :: post) :
    ∀ it ∈ scheduleResults hs d pre.length,
      ∃ q ∈ d.phases, it.id = q.id ∧ it.isParallel = q.isParallel := by
  rw [scheduleResults_decomp hs d pre post a hphases]
  intro it hit
  rcases List.mem_append.mp hit with h1 | h2
  · obtain ⟨q, hq, hc⟩ := backChain_corr hs d.anchorDate pre.reverse _ it
      (List.mem_reverse.mp h1)
    refine ⟨q, ?_, hc⟩
    rw [hphases]
    exact List.mem_append.mpr (Or.inl (List.mem_reverse.mp hq))
  · rcases List.mem_cons.mp h2 with h3 | h3
    · refine ⟨a, ?_, by rw [h3]; exact ⟨rfl, rfl⟩⟩
      rw [hphases]
      exact List.mem_append.mpr (Or.inr (List.mem_cons.mpr (Or.inl rfl)))
    · obtain ⟨q, hq, hc⟩ := forwardChain_corr hs d.anchorDate post _ it h3
      refine ⟨q, ?_, hc⟩
      rw [hphases]
      exact List.mem_append.mpr (Or.inr (List.mem_cons.mpr (Or.inr hq)))

theorem scheduleResults_parallel_mem (hs : List Int) (d : TimelineData)
    (pre post : List Phase) (a : Phase) (hphases : d.phases = pre ++ a :: post)
    (q : Phase) (hpar : q.isParallel = true) (hq : q ∈ pre ∨ q ∈ post) :
    processParallel hs d.anchorDate q ∈ scheduleResults hs d pre.length := by
  rw [scheduleResults_decomp hs d pre post a hphases]
  rcases hq with h1 | h1
  · exact List.mem_append.mpr (Or.inl (List.mem_reverse.mpr
      (backChain_parallel_mem hs d.anchorDate pre.reverse _ q
        (List.mem_reverse.mpr h1) hpar)))
  · exact List.mem_append.mpr (Or.inr (List.mem_cons.mpr (Or.inr
      (forwardChain_parallel_mem hs d.anchorDate post _ q h1 hpar))))

theorem findPhaseIdx_isSome (pid : String) (l : List Phase)
    (h : ∃ a ∈ l, (a.id == pid) = true) : ∃ i, findPhaseIdx pid l = some i := by
  cases hf : findPhaseIdx pid l with
  | some i => exact ⟨i, rfl⟩
  | none =>
    obtain ⟨a, ha, hab⟩ := h
    have h1 := (findPhaseIdx_eq_none pid l).mp hf a ha
    rw [hab] at h1
    exact absurd h1 (by simp)

theorem findPhaseIdx_decomp (pid : String) :
    ∀ l : List Phase, ∀ i, findPhaseIdx pid l = some i →
      ∃ pre a post, l = pre ++ a :: post ∧ pre.length = i ∧ (a.id == pid) = true ∧
        ∀ p ∈ pre, (p.id == pid) = false := by
  intro l
  induction l with
  | nil => intro i h; simp [findPhaseIdx] at h
  | cons h0 tl ih =>
    intro i h
    cases hb : (h0.id == pid) with
    | true =>
      rw [findPhaseIdx, hb] at h
      simp only [if_true, Option.some.injEq] at h
      exact ⟨[], h0, tl, rfl, by simp [← h], hb, by simp⟩
    | false =>
      rw [findPhaseIdx, hb] at h
      simp only [Bool.false_eq_true, if_false, Option.map_eq_some'] at h
      obtain ⟨j, hj, hji⟩ := h
      obtain ⟨pre, a, post, hl, hlen, ha, hpre⟩ := ih j hj
      refine ⟨h0 :: pre, a, post, by rw [hl]; rfl, by simp [hlen, ← hji], ha, ?_⟩
      intro p hp
      rcases List.mem_cons.mp hp with h1 | h1
      · subst h1; exact hb
      · exact hpre p h1

/-- When the stored anchor id resolves to some phase, the engine runs without
self-heal and its result decomposes around the anchor. -/
theorem calculateSchedule_of_anchor (hs : List Int) (d : TimelineData)
    (hanchor : ∃ a ∈ d.phases, (a.id == d.anchorPhaseId) = true) :
    ∃ pre a post, d.phases = pre ++ a :: post ∧ (a.id == d.anchorPhaseId) = true ∧
      (∀ p ∈ pre, (p.id == d.anchorPhaseId) = false) ∧
      calculateSchedule hs d = (some (scheduleResults hs d pre.length), d) := by
  obtain ⟨i, hfi⟩ := findPhaseIdx_isSome d.anchorPhaseId d.phases hanchor
  obtain ⟨pre, a, post, hl, hlen, ha, hpre⟩ := findPhaseIdx_decomp d.anchorPhaseId d.phases i hfi
  exact ⟨pre, a, post, hl, ha, hpre, by rw [hlen]; exact calculateSchedule_found hs d i hfi⟩

/-- For a parallel non-anchor phase, the schedule item the move branch reads
back is exactly processParallel of the phase. -/
theorem move_item_parallel (hs : List Int) (d : TimelineData) (pid : String)
    (p : Phase) (mIt : ScheduleItem)
    (hp : d.phases.find? (fun q => q.id == pid) = some p)
    (hna : (p.id == d.anchorPhaseId) = false)
    (hanchor : ∃ a ∈ d.phases, (a.id == d.anchorPhaseId) = true)
    (hnd : (d.phases.map Phase.id).Nodup)
    (hmIt : ((calculateSchedule hs d).1.getD []).find? (fun it => it.id == pid) = some mIt)
    (hpar : p.isParallel = true) :
    mIt = processParallel hs d.anchorDate p := by
  obtain ⟨pre, a, post, hl, ha, hpre, hcalc⟩ := calculateSchedule_of_anchor hs d hanchor
  rw [hcalc] at hmIt
  simp only [Option.getD_some] at hmIt
  have hpid := List.find?_some hp
  have hpideq : p.id = pid := by simpa using hpid
  have hpmem : p ∈ d.phases := List.mem_of_find?_eq_some hp
  have hpa : p ≠ a := by
    intro he
    rw [he] at hna
    rw [hna] at ha
    exact absurd ha (by simp)
  have hppp : p ∈ pre ∨ p ∈ post := by
    rw [hl] at hpmem
    rcases List.mem_append.mp hpmem with h1 | h1
    · exact Or.inl h1
    · rcases List.mem_cons.mp h1 with h2 | h2
      · exact absurd h2 hpa
      · exact Or.inr h2
  have hmem2 : processParallel hs d.anchorDate p ∈ scheduleResults hs d pre.length :=
    scheduleResults_parallel_mem hs d pre post a hl p hpar hppp
  have hnd2 : ((scheduleResults hs d pre.length).map ScheduleItem.id).Nodup := by
    rw [scheduleResults_map_id hs d pre post a hl]
    exact hnd
  have hkey : ScheduleItem.id (processParallel hs d.anchorDate p) = pid := by
    show p.id = pid
    exact hpideq
  have hfind2 := find_first_unique ScheduleItem.id pid (scheduleResults hs d pre.length)
    hnd2 (processParallel hs d.anchorDate p) hmem2 hkey
  have h3 : some mIt = some (processParallel hs d.anchorDate p) := by
    rw [← hmIt, ← hfind2]
  exact Option.some.inj h3

/-- The temp span read by the move branch equals the span of the schedule
item of the dragged phase, and the engine call leaves the data unchanged. -/
theorem moveTempSpan_eq (hs : List Int) (d : TimelineData) (pid : String)
    (p : Phase) (mIt : ScheduleItem)
    (hp : d.phases.find? (fun q => q.id == pid) = some p)
    (hna : (p.id == d.anchorPhaseId) = false)
    (hanchor : ∃ a ∈ d.phases, (a.id == d.anchorPhaseId) = true)
    (hnd : (d.phases.map Phase.id).Nodup)
    (hwf : p.isParallel = true → p.manualStartDate.isSome = true →
      p.manualEndDate.isSome = true)
    (hmIt : ((calculateSchedule hs d).1.getD []).find? (fun it => it.id == pid)
      = some mIt) :
    moveTempSpan hs d pid p = ((mIt.startDate, mIt.endDate), d) := by
  obtain ⟨pre, a, post, hl, ha, hpre, hcalc⟩ := calculateSchedule_of_anchor hs d hanchor
  cases hc : (p.isParallel && p.manualStartDate.isSome) with
  | true =>
    have hc' : p.isParallel = true ∧ p.manualStartDate.isSome = true :=
      Bool.and_eq_true_iff.mp hc
    obtain ⟨s0, hs0⟩ := Option.isSome_iff_exists.mp hc'.2
    obtain ⟨e0, he0⟩ := Option.isSome_iff_exists.mp (hwf hc'.1 hc'.2)
    have hid := move_item_parallel hs d pid p mIt hp hna hanchor hnd hmIt hc'.1
    have hstart : mIt.startDate = s0 := by rw [hid]; simp [processParallel, hs0]
    have hendd : mIt.endDate = e0 := by rw [hid]; simp [processParallel, hs0, he0]
    unfold moveTempSpan
    rw [hc]
    simp [hs0, he0, hstart, hendd]
  | false =>
    rw [hcalc] at hmIt
    simp only [Option.getD_some] at hmIt
    unfold moveTempSpan
    rw [hc]
    simp only [Bool.false_eq_true, if_false]
    rw [hcalc]
    simp [hmIt]

/-- Core reduction of a non-anchor move: applying the gantt change updates
the matched timeline with the ganttMove result, and ganttMove reduces to the
collision test against the current schedule with the proposed span being the
schedule-item span shifted by deltaDays. -/
theorem applyGanttChange_move_core (st : AppState) (g : DragState) (δ : Int)
    (t : Timeline) (p : Phase) (mIt : ScheduleItem)
    (htype : g.type = "move") (hδ : δ ≠ 0)
    (ht : st.timelines.find? (fun t0 => t0.id == g.timelineId) = some t)
    (hp : t.data.phases.find? (fun q => q.id == g.phaseId) = some p)
    (hna : (p.id == t.data.anchorPhaseId) = false)
    (hanchor : ∃ a ∈ t.data.phases, (a.id == t.data.anchorPhaseId) = true)
    (hnd : (t.data.phases.map Phase.id).Nodup)
    (hwf : p.isParallel = true → p.manualStartDate.isSome = true →
      p.manualEndDate.isSome = true)
    (hmIt : ((calculateSchedule st.globalHolidays t.data).1.getD []).find?
        (fun it => it.id == g.phaseId) = some mIt) :
    applyGanttChange st g δ
      = { st with timelines := (updateTimeline g.timelineId
          (fun t0 => ({ t0 with data :=
            (ganttMove st.globalHolidays t.data g.phaseId p δ) })) st.timelines) } ∧
    ganttMove st.globalHolidays t.data g.phaseId p δ
      = (if hasCollision t.data g.phaseId (mIt.startDate + δ) (mIt.endDate + δ)
            ((calculateSchedule st.globalHolidays t.data).1.getD []) = true
          then t.data
          else { t.data with phases := (updatePhase g.phaseId
            (promotePhase (mIt.startDate + δ) (mIt.endDate + δ)) t.data.phases) }) := by
  have h0 : (δ == 0) = false := beq_eq_false_iff_ne.mpr hδ
  obtain ⟨pre, a, post, hl, ha, hpre, hcalc⟩ :=
    calculateSchedule_of_anchor st.globalHolidays t.data hanchor
  constructor
  · simp only [applyGanttChange, h0, Bool.false_eq_true, if_false, ht, hp, htype]
    simp [hna]
  · have hts := moveTempSpan_eq st.globalHolidays t.data g.phaseId p mIt
      hp hna hanchor hnd hwf hmIt
    unfold ganttMove
    rw [hts]
    unfold moveCollides
    rw [hcalc]
    simp only [Option.getD_some]
    rw [hcalc]
    simp only [Option.getD_some]

/-- A rejected move (collision detected) leaves the whole application state
unchanged, provided the anchor id resolves (no self-heal fires). -/
theorem move_reject (st : AppState) (g : DragState) (δ : Int)
    (t : Timeline) (p : Phase) (mIt : ScheduleItem)
    (htype : g.type = "move") (hδ : δ ≠ 0)
    (ht : st.timelines.find? (fun t0 => t0.id == g.timelineId) = some t)
    (hp : t.data.phases.find? (fun q => q.id == g.phaseId) = some p)
    (hna : (p.id == t.data.anchorPhaseId) = false)
    (hanchor : ∃ a ∈ t.data.phases, (a.id == t.data.anchorPhaseId) = true)
    (hnd : (t.data.phases.map Phase.id).Nodup)
    (hwf : p.isParallel = true → p.manualStartDate.isSome = true →
      p.manualEndDate.isSome = true)
    (hmIt : ((calculateSchedule st.globalHolidays t.data).1.getD []).find?
        (fun it => it.id == g.phaseId) = some mIt)
    (hcol : hasCollision t.data g.phaseId (mIt.startDate + δ) (mIt.endDate + δ)
        ((calculateSchedule st.globalHolidays t.data).1.getD []) = true) :
    applyGanttChange st g δ = st := by
  obtain ⟨h1, h2⟩ := applyGanttChange_move_core st g δ t p mIt
    htype hδ ht hp hna hanchor hnd hwf hmIt
  rw [h1, h2, if_pos hcol]
  have hfix : (fun t0 => ({ t0 with data := t.data } : Timeline)) t = t := rfl
  rw [updateTimeline_fix g.timelineId _ st.timelines t ht hfix]

/-- An accepted move promotes exactly the dragged phase in the matched
timeline. -/
theorem move_accept (st : AppState) (g : DragState) (δ : Int)
    (t : Timeline) (p : Phase) (mIt : ScheduleItem)
    (htype : g.type = "move") (hδ : δ ≠ 0)
    (ht : st.timelines.find? (fun t0 => t0.id == g.timelineId) = some t)
    (hp : t.data.phases.find? (fun q => q.id == g.phaseId) = some p)
    (hna : (p.id == t.data.anchorPhaseId) = false)
    (hanchor : ∃ a ∈ t.data.phases, (a.id == t.data.anchorPhaseId) = true)
    (hnd : (t.data.phases.map Phase.id).Nodup)
    (hwf : p.isParallel = true → p.manualStartDate.isSome = true →
      p.manualEndDate.isSome = true)
    (hmIt : ((calculateSchedule st.globalHolidays t.data).1.getD []).find?
        (fun it => it.id == g.phaseId) = some mIt)
    (hcol : hasCollision t.data g.phaseId (mIt.startDate + δ) (mIt.endDate + δ)
        ((calculateSchedule st.globalHolidays t.data).1.getD []) = false) :
    applyGanttChange st g δ
      = { st with timelines := (updateTimeline g.timelineId (fun t0 =>
          ({ t0 with data := ({ t.data with phases := (updatePhase g.phaseId
            (promotePhase (mIt.startDate + δ) (mIt.endDate + δ)) t.data.phases) }) }))
          st.timelines) } := by
  obtain ⟨h1, h2⟩ := applyGanttChange_move_core st g δ t p mIt
    htype hδ ht hp hna hanchor hnd hwf hmIt
  rw [h1, h2, if_neg (by simp [hcol])]

/-- The accepted-move mutation really changes the state: the dragged phase is
promoted or its manual dates move by a non-zero delta. -/
theorem move_accept_ne (st : AppState) (g : DragState) (δ : Int)
    (t : Timeline) (p : Phase) (mIt : ScheduleItem)
    (htype : g.type = "move") (hδ : δ ≠ 0)
    (ht : st.timelines.find? (fun t0 => t0.id == g.timelineId) = some t)
    (hp : t.data.phases.find? (fun q => q.id == g.phaseId) = some p)
    (hna : (p.id == t.data.anchorPhaseId) = false)
    (hanchor : ∃ a ∈ t.data.phases, (a.id == t.data.anchorPhaseId) = true)
    (hnd : (t.data.phases.map Phase.id).Nodup)
    (hwf : p.isParallel = true → p.manualStartDate.isSome = true →
      p.manualEndDate.isSome = true)
    (hmIt : ((calculateSchedule st.globalHolidays t.data).1.getD []).find?
        (fun it => it.id == g.phaseId) = some mIt)
    (hcol : hasCollision t.data g.phaseId (mIt.startDate + δ) (mIt.endDate + δ)
        ((calculateSchedule st.globalHolidays t.data).1.getD []) = false) :
    applyGanttChange st g δ ≠ st := by
  rw [move_accept st g δ t p mIt htype hδ ht hp hna hanchor hnd hwf hmIt hcol]
  have hpromo : promotePhase (mIt.startDate + δ) (mIt.endDate + δ) p ≠ p := by
    cases hpar : p.isParallel with
    | false =>
      intro he
      have h2 := congrArg Phase.isParallel he
      simp [promotePhase, hpar] at h2
    | true =>
      cases hms : p.manualStartDate with
      | none =>
        intro he
        have h2 := congrArg Phase.manualStartDate he
        simp [promotePhase, hms] at h2
      | some s0 =>
        have hid := move_item_parallel st.globalHolidays t.data g.phaseId p mIt
          hp hna hanchor hnd hmIt hpar
        have hstart : mIt.startDate = s0 := by rw [hid]; simp [processParallel, hms]
        intro he
        have h2 := congrArg Phase.manualStartDate he
        simp only [promotePhase, hms, hstart, Option.some.injEq] at h2
        omega
  have hph : updatePhase g.phaseId
      (promotePhase (mIt.startDate + δ) (mIt.endDate + δ)) t.data.phases
      ≠ t.data.phases :=
    updatePhase_change g.phaseId _ t.data.phases p hp hpromo
  intro hcon
  have htl := congrArg AppState.timelines hcon
  simp only at htl
  refine updateTimeline_change g.timelineId _ st.timelines t ht ?_ htl
  intro he
  exact hph (congrArg TimelineData.phases (congrArg Timeline.data he))

/-- The collision test holds exactly when some other sequential, non-anchor
item of the schedule overlaps the proposed span (closed-interval test). -/
theorem hasCollision_iff (d : TimelineData) (pid : String) (pS pE : Int)
    (sch : List ScheduleItem)
    (hnd : (d.phases.map Phase.id).Nodup)
    (hcorr : ∀ it ∈ sch, ∃ q ∈ d.phases, it.id = q.id ∧ it.isParallel = q.isParallel) :
    hasCollision d pid pS pE sch = true ↔
      ∃ it ∈ sch, it.id ≠ pid ∧ it.isParallel = false ∧ it.id ≠ d.anchorPhaseId ∧
        pS ≤ it.endDate ∧ it.startDate ≤ pE := by
  unfold hasCollision
  rw [List.any_eq_true]
  constructor
  · rintro ⟨it, hit, hcond⟩
    obtain ⟨q, hq, hqid, hqpar⟩ := hcorr it hit
    have hfq : d.phases.find? (fun y => y.id == it.id) = some q :=
      find_first_unique Phase.id it.id d.phases hnd q hq hqid.symm
    refine ⟨it, hit, ?_⟩
    cases hb1 : (it.id == pid) with
    | true => rw [hb1] at hcond; simp at hcond
    | false =>
      rw [hb1] at hcond
      simp only [Bool.false_eq_true, if_false] at hcond
      rw [hfq] at hcond
      simp only [] at hcond
      cases hb2 : q.isParallel with
      | true => rw [hb2] at hcond; simp at hcond
      | false =>
        rw [hb2] at hcond
        simp only [Bool.false_eq_true, if_false] at hcond
        cases hb3 : (q.id == d.anchorPhaseId) with
        | true => rw [hb3] at hcond; simp at hcond
        | false =>
          rw [hb3] at hcond
          simp only [Bool.false_eq_true, if_false, Bool.and_eq_true,
            decide_eq_true_eq] at hcond
          refine ⟨by simpa using hb1, by rw [hqpar, hb2], ?_, hcond.1, hcond.2⟩
          rw [hqid]
          simpa using hb3
  · rintro ⟨it, hit, hne1, hpar, hne2, hle1, hle2⟩
    obtain ⟨q, hq, hqid, hqpar⟩ := hcorr it hit
    have hfq : d.phases.find? (fun y => y.id == it.id) = some q :=
      find_first_unique Phase.id it.id d.phases hnd q hq hqid.symm
    refine ⟨it, hit, ?_⟩
    have hb1 : (it.id == pid) = false := beq_eq_false_iff_ne.mpr hne1
    have hb2 : q.isParallel = false := by rw [← hqpar]; exact hpar
    have hb3 : (q.id == d.anchorPhaseId) = false := by
      rw [← hqid]
      exact beq_eq_false_iff_ne.mpr hne2
    rw [hb1]
    simp only [Bool.false_eq_true, if_false]
    rw [hfq]
    simp only []
    rw [hb2]
    simp only [Bool.false_eq_true, if_false]
    rw [hb3]
    simp only [Bool.false_eq_true, if_false, Bool.and_eq_true, decide_eq_true_eq]
    exact ⟨hle1, hle2⟩

-- ===================================================================
-- C2: collision rule for non-anchor moves
-- ===================================================================

/-- A valid-anchor fixture: three sequential phases chained after anchor
phase 1 anchored at day 0 (a Thursday). -/
def validMoveState : AppState :=
  { activeTimelineId := "T", globalHolidays := [],
    timelines :=
      [{ id := "T", name := "T",
          data :=
            { anchorDate := 0, anchorPhaseId := "1", anchorType := "end", sortOrder := "asc",
              phases :=
                [{ id := "1", name := "a", days := 1, isParallel := false,
                    manualStartDate := none, manualEndDate := none },
                  { id := "2", name := "b", days := 3, isParallel := false,
                    manualStartDate := none, manualEndDate := none },
                  { id := "3", name := "c", days := 3, isParallel := false,
                    manualStartDate := none, manualEndDate := none }] } }] }

/-- A move drag of phase 2. -/
def validMoveDrag : DragState :=
  { type := "move", phaseId := "2", timelineId := "T", initialDays := 3 }

/-- The same three-phase timeline with a stale anchor id. -/
def staleCollisionState : AppState :=
  { activeTimelineId := "T", globalHolidays := [],
    timelines :=
      [{ id := "T", name := "T",
          data :=
            { anchorDate := 0, anchorPhaseId := "zzz", anchorType := "end",
              sortOrder := "asc",
              phases :=
                [{ id := "1", name := "a", days := 1, isParallel := false,
                    manualStartDate := none, manualEndDate := none },
                  { id := "2", name := "b", days := 3, isParallel := false,
                    manualStartDate := none, manualEndDate := none },
                  { id := "3", name := "c", days := 3, isParallel := false,
                    manualStartDate := none, manualEndDate := none }] } }] }

/-- C2 counterexample.  On a stale anchor id, moving phase 2 into phase 3 is
rejected (no phase field changes), yet the state is not unchanged: the engine
self-heal inside the collision check repoints anchorPhaseId from zzz to 1.
So rejection does not imply a completely unchanged timeline state. -/
theorem move_collision_cex :
    applyGanttChange staleCollisionState validMoveDrag 1 ≠ staleCollisionState ∧
    ((applyGanttChange staleCollisionState validMoveDrag 1).timelines.map
        fun t0 => t0.data.phases)
      = (staleCollisionState.timelines.map fun t0 => t0.data.phases) ∧
    ((applyGanttChange staleCollisionState validMoveDrag 1).timelines.map
        fun t0 => t0.data.anchorPhaseId) = ["1"] ∧
    (staleCollisionState.timelines.map fun t0 => t0.data.anchorPhaseId) = ["zzz"] := by
  refine ⟨by decide, ?_, ?_, ?_⟩ <;> rfl

/-- C2 amended.  For a non-anchor move with non-zero delta on a timeline
whose anchor id resolves to a phase (so the engine does not self-heal), with
well-formed phases (unique ids; a parallel phase with a manual start also has
a manual end): the move is rejected with the state completely unchanged if
and only if the proposed span (the current resolved span shifted by
deltaDays calendar days) overlaps, under the closed-interval test
s1 ≤ e2 ∧ e1 ≥ s2, the current resolved span of at least one other phase
that is sequential and not the anchor. -/
theorem move_collision_rejection (st : AppState) (g : DragState) (δ : Int)
    (t : Timeline) (p : Phase) (mIt : ScheduleItem)
    (htype : g.type = "move") (hδ : δ ≠ 0)
    (ht : st.timelines.find? (fun t0 => t0.id == g.timelineId) = some t)
    (hp : t.data.phases.find? (fun q => q.id == g.phaseId) = some p)
    (hna : (p.id == t.data.anchorPhaseId) = false)
    (hanchor : ∃ a ∈ t.data.phases, (a.id == t.data.anchorPhaseId) = true)
    (hnd : (t.data.phases.map Phase.id).Nodup)
    (hwf : p.isParallel = true → p.manualStartDate.isSome = true →
      p.manualEndDate.isSome = true)
    (hmIt : ((calculateSchedule st.globalHolidays t.data).1.getD []).find?
        (fun it => it.id == g.phaseId) = some mIt) :
    applyGanttChange st g δ = st ↔
      ∃ it ∈ (calculateSchedule st.globalHolidays t.data).1.getD [],
        it.id ≠ g.phaseId ∧ it.isParallel = false ∧ it.id ≠ t.data.anchorPhaseId ∧
          mIt.startDate + δ ≤ it.endDate ∧ it.startDate ≤ mIt.endDate + δ := by
  obtain ⟨pre, a, post, hl, ha, hpre, hcalc⟩ :=
    calculateSchedule_of_anchor st.globalHolidays t.data hanchor
  have hcorr : ∀ it ∈ (calculateSchedule st.globalHolidays t.data).1.getD [],
      ∃ q ∈ t.data.phases, it.id = q.id ∧ it.isParallel = q.isParallel := by
    rw [hcalc]
    simp only [Option.getD_some]
    exact scheduleResults_corr st.globalHolidays t.data pre post a hl
  have hiff := hasCollision_iff t.data g.phaseId (mIt.startDate + δ) (mIt.endDate + δ)
    ((calculateSchedule st.globalHolidays t.data).1.getD []) hnd hcorr
  constructor
  · intro heq
    by_contra hno
    have hcolf : hasCollision t.data g.phaseId (mIt.startDate + δ) (mIt.endDate + δ)
        ((calculateSchedule st.globalHolidays t.data).1.getD []) = false := by
      cases hcb : hasCollision t.data g.phaseId (mIt.startDate + δ) (mIt.endDate + δ)
          ((calculateSchedule st.globalHolidays t.data).1.getD []) with
      | true => exact absurd (hiff.mp hcb) hno
      | false => rfl
    exact move_accept_ne st g δ t p mIt htype hδ ht hp hna hanchor hnd hwf hmIt hcolf heq
  · intro hex
    exact move_reject st g δ t p mIt htype hδ ht hp hna hanchor hnd hwf hmIt (hiff.mpr hex)

/-- Witness for C2 amended: moving phase 2 forward by one day collides with
phase 3 and the state is unchanged. -/
theorem move_collision_rejection_witness :
    applyGanttChange validMoveState validMoveDrag 1 = validMoveState := by
  have h := move_collision_rejection validMoveState validMoveDrag 1
    { id := "T", name := "T",
      data :=
        { anchorDate := 0, anchorPhaseId := "1", anchorType := "end", sortOrder := "asc",
          phases :=
            [{ id := "1", name := "a", days := 1, isParallel := false,
                manualStartDate := none, manualEndDate := none },
              { id := "2", name := "b", days := 3, isParallel := false,
                manualStartDate := none, manualEndDate := none },
              { id := "3", name := "c", days := 3, isParallel := false,
                manualStartDate := none, manualEndDate := none }] } }
    { id := "2", name := "b", days := 3, isParallel := false,
      manualStartDate := none, manualEndDate := none }
    { id := "2", name := "b", days := 3, isParallel := false,
      manualStartDate := none, manualEndDate := none,
      startDate := 1, endDate := 5 }
    rfl (by decide) rfl rfl (by decide) (by decide) (by decide) (by decide) rfl
  exact h.mpr (by decide)

-- ===================================================================
-- C10: frame of an accepted move
-- ===================================================================

/-- A stale-anchor fixture whose phase 2 is parallel with manual dates, so a
move of it is accepted. -/
def staleMoveState : AppState :=
  { activeTimelineId := "T", globalHolidays := [],
    timelines :=
      [{ id := "T", name := "T",
          data :=
            { anchorDate := 0, anchorPhaseId := "zzz", anchorType := "end",
              sortOrder := "asc",
              phases :=
                [{ id := "1", name := "a", days := 1, isParallel := false,
                    manualStartDate := none, manualEndDate := none },
                  { id := "2", name := "p", days := 2, isParallel := true,
                    manualStartDate := some 100, manualEndDate := some 101 }] } }] }

/-- C10 counterexample.  On a stale anchor id, an accepted move of phase 2
also changes the stored anchorPhaseId (the engine self-heal repoints it to
phase 1): the accepted move does change a field outside the moved phase. -/
theorem move_frame_cex :
    ((applyGanttChange staleMoveState validMoveDrag 1).timelines.map
        fun t0 => t0.data.phases.map Phase.manualStartDate)
      = [[none, some 101]] ∧
    ((applyGanttChange staleMoveState validMoveDrag 1).timelines.map
        fun t0 => t0.data.anchorPhaseId) = ["1"] ∧
    (staleMoveState.timelines.map fun t0 => t0.data.anchorPhaseId) = ["zzz"] := by
  refine ⟨?_, ?_, ?_⟩ <;> rfl

/-- C10 amended.  For an accepted (collision-free, non-zero delta) non-anchor
move on a timeline whose anchor id resolves to a phase, the state change is
exactly the promotion of the dragged phase in the matched timeline:
activeTimelineId and the holiday list are untouched, every timeline at a
position holding a different id is untouched, every phase of the matched
timeline with a different id is untouched, the anchor configuration of the
matched timeline is untouched (visible in the record update), and the
promoted phase keeps its id, name and its pre-move days while only
isParallel, manualStartDate and manualEndDate change. -/
theorem move_frame_semantics (st : AppState) (g : DragState) (δ : Int)
    (t : Timeline) (p : Phase) (mIt : ScheduleItem)
    (htype : g.type = "move") (hδ : δ ≠ 0)
    (ht : st.timelines.find? (fun t0 => t0.id == g.timelineId) = some t)
    (hp : t.data.phases.find? (fun q => q.id == g.phaseId) = some p)
    (hna : (p.id == t.data.anchorPhaseId) = false)
    (hanchor : ∃ a ∈ t.data.phases, (a.id == t.data.anchorPhaseId) = true)
    (hnd : (t.data.phases.map Phase.id).Nodup)
    (hwf : p.isParallel = true → p.manualStartDate.isSome = true →
      p.manualEndDate.isSome = true)
    (hmIt : ((calculateSchedule st.globalHolidays t.data).1.getD []).find?
        (fun it => it.id == g.phaseId) = some mIt)
    (hcol : hasCollision t.data g.phaseId (mIt.startDate + δ) (mIt.endDate + δ)
        ((calculateSchedule st.globalHolidays t.data).1.getD []) = false) :
    applyGanttChange st g δ
      = { st with timelines := (updateTimeline g.timelineId (fun t0 =>
          ({ t0 with data := ({ t.data with phases := (updatePhase g.phaseId
            (promotePhase (mIt.startDate + δ) (mIt.endDate + δ)) t.data.phases) }) }))
          st.timelines) } ∧
    (applyGanttChange st g δ).activeTimelineId = st.activeTimelineId ∧
    (applyGanttChange st g δ).globalHolidays = st.globalHolidays ∧
    (∀ j : Nat, ∀ t0 : Timeline, st.timelines[j]? = some t0 →
      (t0.id == g.timelineId) = false →
      (applyGanttChange st g δ).timelines[j]? = some t0) ∧
    (∀ j : Nat, ∀ q : Phase, t.data.phases[j]? = some q → (q.id == g.phaseId) = false →
      (updatePhase g.phaseId (promotePhase (mIt.startDate + δ) (mIt.endDate + δ))
        t.data.phases)[j]? = some q) ∧
    (promotePhase (mIt.startDate + δ) (mIt.endDate + δ) p).days = p.days ∧
    (promotePhase (mIt.startDate + δ) (mIt.endDate + δ) p).id = p.id ∧
    (promotePhase (mIt.startDate + δ) (mIt.endDate + δ) p).name = p.name ∧
    (promotePhase (mIt.startDate + δ) (mIt.endDate + δ) p).isParallel = true ∧
    (promotePhase (mIt.startDate + δ) (mIt.endDate + δ) p).manualStartDate
      = some (mIt.startDate + δ) ∧
    (promotePhase (mIt.startDate + δ) (mIt.endDate + δ) p).manualEndDate
      = some (mIt.endDate + δ) := by
  have hacc := move_accept st g δ t p mIt htype hδ ht hp hna hanchor hnd hwf hmIt hcol
  refine ⟨hacc, by rw [hacc], by rw [hacc], ?_, ?_, rfl, rfl, rfl, rfl, rfl, rfl⟩
  · intro j t0 hj ht0
    rw [hacc]
    exact updateTimeline_frame g.timelineId _ st.timelines j t0 hj ht0
  · intro j q hj hq
    exact updatePhase_frame g.phaseId _ t.data.phases j q hj hq

/-- Witness for C10 amended: moving phase 2 of the valid fixture by +10 days
is collision free; the active timeline id is untouched. -/
theorem move_frame_semantics_witness :
    (applyGanttChange validMoveState validMoveDrag 10).activeTimelineId
      = validMoveState.activeTimelineId := by
  have h := move_frame_semantics validMoveState validMoveDrag 10
    { id := "T", name := "T",
      data :=
        { anchorDate := 0, anchorPhaseId := "1", anchorType := "end", sortOrder := "asc",
          phases :=
            [{ id := "1", name := "a", days := 1, isParallel := false,
                manualStartDate := none, manualEndDate := none },
              { id := "2", name := "b", days := 3, isParallel := false,
                manualStartDate := none, manualEndDate := none },
              { id := "3", name := "c", days := 3, isParallel := false,
                manualStartDate := none, manualEndDate := none }] } }
    { id := "2", name := "b", days := 3, isParallel := false,
      manualStartDate := none, manualEndDate := none }
    { id := "2", name := "b", days := 3, isParallel := false,
      manualStartDate := none, manualEndDate := none,
      startDate := 1, endDate := 5 }
    rfl (by decide) rfl rfl (by decide) (by decide) (by decide) (by decide) rfl rfl
  exact h.2.1

-- ===================================================================
-- The surrounding mutation commands (for C3 persistence)
-- ===================================================================

/-- defaultPhaseConfig from src/script.js. -/
def defaultPhaseConfig : List Phase :=
  [{ id := "1", name := "リリース準備", days := 1, isParallel := false,
      manualStartDate := none, manualEndDate := none },
    { id := "2", name := "受入テスト", days := 3, isParallel := false,
      manualStartDate := none, manualEndDate := none },
    { id := "3", name := "総合テスト", days := 5, isParallel := false,
      manualStartDate := none, manualEndDate := none },
    { id := "4", name := "結合テスト", days := 5, isParallel := false,
      manualStartDate := none, manualEndDate := none },
    { id := "5", name := "実装・単体テスト", days := 10, isParallel := false,
      manualStartDate := none, manualEndDate := none },
    { id := "6", name := "詳細設計", days := 5, isParallel := false,
      manualStartDate := none, manualEndDate := none },
    { id := "7", name := "基本設計", days := 5, isParallel := false,
      manualStartDate := none, manualEndDate := none },
    { id := "8", name := "要件定義", days := 5, isParallel := false,
      manualStartDate := none, manualEndDate := none }]

/-- createDefaultTimelineData from src/script.js (today is passed explicitly
instead of reading the clock). -/
def createDefaultTimelineData (today : Int) : TimelineData :=
  { anchorDate := today, anchorPhaseId := "1", anchorType := "end",
    sortOrder := "asc", phases := defaultPhaseConfig }

/-- First index of a timeline with the given id. -/
def findTimelineIdx (tid : String) : List Timeline → Option Nat
  | [] => none
  | t :: rest => if t.id == tid then some 0 else (findTimelineIdx tid rest).map (· + 1)

/-- getActiveTimeline resolution: the timeline with the recorded active id,
falling back to the first timeline. -/
def activeTimelineIdx (st : AppState) : Option Nat :=
  match findTimelineIdx st.activeTimelineId st.timelines with
  | some i => some i
  | none => if st.timelines.isEmpty then none else some 0

/-- Mutate the data of the active timeline in place (no-op when there is no
timeline at all; the source would throw there). -/
def modifyActiveData (st : AppState) (f : TimelineData → TimelineData) : AppState :=
  match activeTimelineIdx st with
  | none => st
  | some i =>
    match st.timelines[i]? with
    | none => st
    | some t => { st with timelines := st.timelines.set i ({ t with data := f t.data }) }

/-- Mutate the phase at a list index in place (no-op when out of range; the
source would throw there). -/
def modifyPhaseAt (ps : List Phase) (idx : Nat) (f : Phase → Phase) : List Phase :=
  match ps[idx]? with
  | none => ps
  | some p => ps.set idx (f p)

/-- Array.prototype.splice insertion at an index (clamped to the length). -/
def insertAt {α : Type} : List α → Nat → α → List α
  | l, 0, x => x :: l
  | [], _ + 1, x => [x]
  | y :: rest, n + 1, x => y :: insertAt rest n x

/-- The mutation commands the UI layer exposes, one per event listener in
src/script.js.  Values the listeners read from the DOM or from prompts are
carried as payloads; fresh ids and the current date are passed explicitly. -/
inductive Op where
  | renamePhase (idx : Nat) (name : String)
  | setParallel (idx : Nat) (checked : Bool)
  | setManualStart (idx : Nat) (v : Option Int)
  | setManualEnd (idx : Nat) (v : Option Int)
  | setDays (idx : Nat) (v : Int)
  | deletePhase (idx : Nat)
  | reorderPhase (fromIdx toIdx : Nat)
  | addPhase (newId : String)
  | setAnchorPhase (pid : String)
  | setAnchorType (v : String)
  | setAnchorDate (v : Int)
  | setHolidays (hs2 : List Int)
  | toggleSort
  | selectTimeline (tid : String)
  | addTimeline (tid : String) (name : String) (today : Int)
  | renameTimeline (name : Option String)
  | deleteTimeline
  | gantt (g : DragState) (delta : Int)

/-- The state transition of each command, from the listeners in
src/script.js. -/
def applyOp (st : AppState) : Op → AppState
  | .renamePhase idx name =>
    modifyActiveData st fun d =>
      { d with phases := modifyPhaseAt d.phases idx (fun p => { p with name := name }) }
  | .setParallel idx checked =>
    modifyActiveData st fun d =>
      match d.phases[idx]? with
      | none => d
      | some p =>
        if d.anchorPhaseId == p.id then d
        else
          let p1 := { p with isParallel := checked }
          let p2 := if checked then
              { p1 with manualStartDate := some (p1.manualStartDate.getD d.anchorDate), manualEndDate := some (p1.manualEndDate.getD d.anchorDate) }
            else p1
          { d with phases := d.phases.set idx p2 }
  | .setManualStart idx v =>
    modifyActiveData st fun d =>
      { d with phases := modifyPhaseAt d.phases idx (fun p =>
          match v with
          | none => { p with manualStartDate := none }
          | some s =>
            { p with manualStartDate := some s, days := getDaysDiff s (p.manualEndDate.getD s) }) }
  | .setManualEnd idx v =>
    modifyActiveData st fun d =>
      { d with phases := modifyPhaseAt d.phases idx (fun p =>
          match v with
          | none => { p with manualEndDate := none }
          | some e =>
            { p with manualEndDate := some e, days := getDaysDiff (p.manualStartDate.getD e) e }) }
  | .setDays idx v =>
    modifyActiveData st fun d =>
      match d.phases[idx]? with
      | none => d
      | some p =>
        if p.isParallel then d
        else { d with phases := d.phases.set idx ({ p with days := max 1 v }) }
  | .deletePhase idx =>
    modifyActiveData st fun d =>
      match d.phases[idx]? with
      | none => d
      | some p =>
        let ps2 := d.phases.eraseIdx idx
        if p.id == d.anchorPhaseId then
          { d with phases := ps2, anchorPhaseId := (ps2.head?.map Phase.id).getD "" }
        else { d with phases := ps2 }
  | .reorderPhase fromIdx toIdx =>
    modifyActiveData st fun d =>
      if fromIdx == toIdx then d
      else
        match d.phases[fromIdx]? with
        | none => d
        | some moved => { d with phases := insertAt (d.phases.eraseIdx fromIdx) toIdx moved }
  | .addPhase newId =>
    modifyActiveData st fun d =>
      { d with phases := d.phases ++
          [{ id := newId, name := "New Phase", days := 5, isParallel := false,
              manualStartDate := none, manualEndDate := none }] }
  | .setAnchorPhase pid => modifyActiveData st fun d => { d with anchorPhaseId := pid }
  | .setAnchorType v => modifyActiveData st fun d => { d with anchorType := v }
  | .setAnchorDate v => modifyActiveData st fun d => { d with anchorDate := v }
  | .setHolidays hs2 => { st with globalHolidays := hs2 }
  | .toggleSort =>
    modifyActiveData st fun d =>
      { d with sortOrder := if d.sortOrder == "asc" then "desc" else "asc" }
  | .selectTimeline tid => { st with activeTimelineId := tid }
  | .addTimeline tid name today =>
    { st with activeTimelineId := tid, timelines := st.timelines ++ [{ id := tid, name := name, data := createDefaultTimelineData today }] }
  | .renameTimeline name =>
    match name with
    | none => st
    | some nm =>
      match activeTimelineIdx st with
      | none => st
      | some i =>
        match st.timelines[i]? with
        | none => st
        | some t => { st with timelines := st.timelines.set i ({ t with name := nm }) }
  | .deleteTimeline =>
    if st.timelines.length ≤ 1 then st
    else
      let ts := st.timelines.filter fun t => !(t.id == st.activeTimelineId)
      match ts.head? with
      | none => st
      | some t0 => { st with timelines := ts, activeTimelineId := t0.id }
  | .gantt g delta => applyGanttChange st g delta

/-- Does the command toggle the parallel checkbox of the phase with id pid in
the timeline with id tlId? -/
def opSetsModeOf (st : AppState) (tlId pid : String) : Op → Bool
  | .setParallel idx _ =>
    match activeTimelineIdx st with
    | none => false
    | some i =>
      match st.timelines[i]? with
      | none => false
      | some t =>
        if t.id == tlId then
          match t.data.phases[idx]? with
          | none => false
          | some p => p.id == pid
        else false
  | _ => false

/-- Does the command create a fresh record reusing the watched phase id or
timeline id?  Ids are never reused in the application (they are
timestamp-generated), so theorems exclude these collisions. -/
def opReusesId (tlId pid : String) : Op → Bool
  | .addPhase newId => newId == pid
  | .addTimeline tid _ _ => tid == tlId
  | _ => false

/-- The invariant C3 tracks: every phase with the watched id in the watched
timeline is in parallel mode. -/
def modeInv (tlId pid : String) (st : AppState) : Prop :=
  ∀ t ∈ st.timelines, t.id = tlId → ∀ q ∈ t.data.phases, q.id = pid →
    q.isParallel = true

theorem mem_of_getElem?_eq_some {α : Type} {l : List α} {n : Nat} {a : α}
    (h : l[n]? = some a) : a ∈ l := by
  obtain ⟨hn, rfl⟩ := List.getElem?_eq_some.mp h
  exact List.getElem_mem hn

theorem mem_updatePhase (pid : String) (f : Phase → Phase) :
    ∀ l : List Phase, ∀ q, q ∈ updatePhase pid f l → q ∈ l ∨ ∃ p0 ∈ l, q = f p0 := by
  intro l
  induction l with
  | nil => intro q hq; simp [updatePhase] at hq
  | cons h0 tl ih =>
    intro q hq
    unfold updatePhase at hq
    cases hb : (h0.id == pid) with
    | true =>
      rw [hb] at hq
      simp only [if_true] at hq
      rcases List.mem_cons.mp hq with h1 | h1
      · exact Or.inr ⟨h0, by simp, h1⟩
      · exact Or.inl (by simp [h1])
    | false =>
      rw [hb] at hq
      simp only [Bool.false_eq_true, if_false] at hq
      rcases List.mem_cons.mp hq with h1 | h1
      · exact Or.inl (by simp [h1])
      · rcases ih q h1 with h2 | ⟨p0, hp0, h2⟩
        · exact Or.inl (by simp [h2])
        · exact Or.inr ⟨p0, by simp [hp0], h2⟩

theorem mem_updateTimeline_find (tid : String) (f : Timeline → Timeline) :
    ∀ l : List Timeline, ∀ t, l.find? (fun t0 => t0.id == tid) = some t →
      ∀ t2 ∈ updateTimeline tid f l, t2 ∈ l ∨ t2 = f t := by
  intro l
  induction l with
  | nil => intro t hfind; simp at hfind
  | cons h0 tl ih =>
    intro t hfind t2 ht2
    rw [List.find?_cons] at hfind
    unfold updateTimeline at ht2
    cases hb : (h0.id == tid) with
    | true =>
      rw [hb] at hfind
      simp only [if_true] at hfind
      have h1 : h0 = t := by simpa using hfind
      rw [hb] at ht2
      simp only [if_true] at ht2
      rcases List.mem_cons.mp ht2 with h2 | h2
      · exact Or.inr (by rw [h2, h1])
      · exact Or.inl (by simp [h2])
    | false =>
      rw [hb] at ht2 hfind
      simp only [Bool.false_eq_true, if_false] at ht2 hfind
      rcases List.mem_cons.mp ht2 with h2 | h2
      · exact Or.inl (by simp [h2])
      · rcases ih t hfind t2 h2 with h3 | h3
        · exact Or.inl (by simp [h3])
        · exact Or.inr h3

theorem mem_insertAt {α : Type} :
    ∀ l : List α, ∀ i : Nat, ∀ x q : α, q ∈ insertAt l i x → q = x ∨ q ∈ l := by
  intro l
  induction l with
  | nil =>
    intro i x q hq
    cases i <;> simpa [insertAt] using hq
  | cons h0 tl ih =>
    intro i x q hq
    cases i with
    | zero =>
      rcases List.mem_cons.mp hq with h1 | h1
      · exact Or.inl h1
      · exact Or.inr h1
    | succ n =>
      rcases List.mem_cons.mp hq with h1 | h1
      · exact Or.inr (by simp [h1])
      · rcases ih n x q h1 with h2 | h2
        · exact Or.inl h2
        · exact Or.inr (by simp [h2])

theorem mem_modifyPhaseAt (ps : List Phase) (idx : Nat) (g : Phase → Phase) (q : Phase)
    (hq : q ∈ modifyPhaseAt ps idx g) :
    q ∈ ps ∨ ∃ p0, ps[idx]? = some p0 ∧ q = g p0 := by
  unfold modifyPhaseAt at hq
  cases hget : ps[idx]? with
  | none => rw [hget] at hq; exact Or.inl hq
  | some p0 =>
    rw [hget] at hq
    rcases List.mem_or_eq_of_mem_set hq with h1 | h1
    · exact Or.inl h1
    · exact Or.inr ⟨p0, rfl, h1⟩

/-- The engine post-state always keeps the phase list. -/
theorem calculateSchedule_snd_phases (hs : List Int) (d : TimelineData) :
    (calculateSchedule hs d).2.phases = d.phases := by
  cases hp : d.phases with
  | nil => rw [calculateSchedule_nil hs d hp, hp]
  | cons p0 rest =>
    cases hfind : findPhaseIdx d.anchorPhaseId d.phases with
    | some i =>
      rw [calculateSchedule_found hs d i hfind]
      exact hp
    | none =>
      rw [calculateSchedule_stale hs d p0 rest hp hfind]
      exact hp

theorem moveTempSpan_snd_phases (hs : List Int) (d : TimelineData) (pid : String)
    (p : Phase) : (moveTempSpan hs d pid p).2.phases = d.phases := by
  unfold moveTempSpan
  cases hc : (p.isParallel && p.manualStartDate.isSome) with
  | true => simp
  | false =>
    simp only [Bool.false_eq_true, if_false]
    rcases hcs : calculateSchedule hs d with ⟨r, d1⟩
    have h1 : d1.phases = d.phases := by
      have := calculateSchedule_snd_phases hs d
      rw [hcs] at this
      exact this
    cases r with
    | none => simpa using h1
    | some sch =>
      cases hfi : sch.find? (fun it => it.id == pid) with
      | none => simpa [hfi] using h1
      | some it => simpa [hfi] using h1

theorem resizePhase_id (aD i δ : Int) (p : Phase) :
    (resizePhase aD i δ p).id = p.id ∧ (resizePhase aD i δ p).isParallel = p.isParallel := by
  unfold resizePhase
  cases hp : p.isParallel <;> simp [hp]

/-- ganttMove never reverts any phase to sequential and keeps all phase ids:
the mode invariant on the phase list is preserved. -/
theorem ganttMove_phases_mode (hs : List Int) (d : TimelineData) (pid2 : String)
    (p : Phase) (δ : Int) (pid : String)
    (hinv : ∀ q ∈ d.phases, q.id = pid → q.isParallel = true) :
    ∀ q ∈ (ganttMove hs d pid2 p δ).phases, q.id = pid → q.isParallel = true := by
  intro q hq hqid
  have hcol2 : (moveCollides hs (moveTempSpan hs d pid2 p).2 pid2
      ((moveTempSpan hs d pid2 p).1.1 + δ) ((moveTempSpan hs d pid2 p).1.2 + δ)).2.phases
      = d.phases := by
    show (calculateSchedule hs (moveTempSpan hs d pid2 p).2).2.phases = d.phases
    rw [calculateSchedule_snd_phases, moveTempSpan_snd_phases]
  have hgm : ganttMove hs d pid2 p δ =
      (if (moveCollides hs (moveTempSpan hs d pid2 p).2 pid2
          ((moveTempSpan hs d pid2 p).1.1 + δ) ((moveTempSpan hs d pid2 p).1.2 + δ)).1
        then (moveCollides hs (moveTempSpan hs d pid2 p).2 pid2
          ((moveTempSpan hs d pid2 p).1.1 + δ) ((moveTempSpan hs d pid2 p).1.2 + δ)).2
        else { (moveCollides hs (moveTempSpan hs d pid2 p).2 pid2
            ((moveTempSpan hs d pid2 p).1.1 + δ) ((moveTempSpan hs d pid2 p).1.2 + δ)).2
          with phases := (updatePhase pid2
            (promotePhase ((moveTempSpan hs d pid2 p).1.1 + δ)
              ((moveTempSpan hs d pid2 p).1.2 + δ))
            (moveCollides hs (moveTempSpan hs d pid2 p).2 pid2
              ((moveTempSpan hs d pid2 p).1.1 + δ)
              ((moveTempSpan hs d pid2 p).1.2 + δ)).2.phases) }) := rfl
  rw [hgm] at hq
  cases hcb : (moveCollides hs (moveTempSpan hs d pid2 p).2 pid2
      ((moveTempSpan hs d pid2 p).1.1 + δ) ((moveTempSpan hs d pid2 p).1.2 + δ)).1 with
  | true =>
    rw [hcb] at hq
    simp only [if_true] at hq
    rw [hcol2] at hq
    exact hinv q hq hqid
  | false =>
    rw [hcb] at hq
    simp only [Bool.false_eq_true, if_false] at hq
    simp only [hcol2] at hq
    rcases mem_updatePhase pid2 _ d.phases q hq with h1 | ⟨p0, _, h1⟩
    · exact hinv q h1 hqid
    · rw [h1]; rfl

/-- applyGanttChange preserves the mode invariant: a move can only set
isParallel to true, a resize never touches it. -/
theorem applyGanttChange_mode (st : AppState) (g : DragState) (δ : Int)
    (tlId pid : String) (hinv : modeInv tlId pid st) :
    modeInv tlId pid (applyGanttChange st g δ) := by
  unfold applyGanttChange
  cases h0 : (δ == 0) with
  | true => simpa using hinv
  | false =>
    simp only [Bool.false_eq_true, if_false]
    cases hfind : st.timelines.find? (fun t0 => t0.id == g.timelineId) with
    | none => exact hinv
    | some t =>
      simp only []
      cases hp : t.data.phases.find? (fun q => q.id == g.phaseId) with
      | none => exact hinv
      | some p =>
        simp only []
        intro t2 ht2 htl q hq hqid
        rcases mem_updateTimeline_find g.timelineId _ st.timelines t hfind t2 ht2
          with h1 | h1
        · exact hinv t2 h1 htl q hq hqid
        · have hmemT : t ∈ st.timelines := List.mem_of_find?_eq_some hfind
          have htid : t.id = tlId := by
            rw [h1] at htl
            simpa using htl
          have hinvT : ∀ q0 ∈ t.data.phases, q0.id = pid → q0.isParallel = true :=
            hinv t hmemT htid
          rw [h1] at hq
          simp only [] at hq
          cases hr : (g.type == "resize") with
          | true =>
            rw [hr] at hq
            simp only [if_true] at hq
            rcases mem_updatePhase g.phaseId _ t.data.phases q hq with h2 | ⟨p0, hp0, h2⟩
            · exact hinvT q h2 hqid
            · obtain ⟨hid2, hpar2⟩ :=
                resizePhase_id t.data.anchorDate g.initialDays δ p0
              rw [h2] at hqid ⊢
              rw [hpar2]
              exact hinvT p0 hp0 (by rw [← hid2]; exact hqid)
          | false =>
            rw [hr] at hq
            simp only [Bool.false_eq_true, if_false] at hq
            cases hm : (g.type == "move") with
            | false =>
              rw [hm] at hq
              simp only [Bool.false_eq_true, if_false] at hq
              exact hinvT q hq hqid
            | true =>
              rw [hm] at hq
              simp only [if_true] at hq
              cases ha : (p.id == t.data.anchorPhaseId) with
              | true =>
                rw [ha] at hq
                simp only [if_true] at hq
                exact hinvT q hq hqid
              | false =>
                rw [ha] at hq
                simp only [Bool.false_eq_true, if_false] at hq
                exact ganttMove_phases_mode st.globalHolidays t.data g.phaseId p δ
                  pid hinvT q hq hqid

/-- Mutating the active timeline data preserves the mode invariant whenever
the mutation itself does on the phase list of the active timeline. -/
theorem modifyActiveData_mode (st : AppState) (f : TimelineData → TimelineData)
    (tlId pid : String)
    (hf : ∀ i t, activeTimelineIdx st = some i → st.timelines[i]? = some t →
      t.id = tlId → (∀ q ∈ t.data.phases, q.id = pid → q.isParallel = true) →
      ∀ q ∈ (f t.data).phases, q.id = pid → q.isParallel = true)
    (hinv : modeInv tlId pid st) :
    modeInv tlId pid (modifyActiveData st f) := by
  unfold modifyActiveData
  cases hidx : activeTimelineIdx st with
  | none => exact hinv
  | some i =>
    simp only []
    cases hget : st.timelines[i]? with
    | none => exact hinv
    | some t =>
      simp only []
      intro t2 ht2 htl q hq hqid
      rcases List.mem_or_eq_of_mem_set ht2 with h1 | h1
      · exact hinv t2 h1 htl q hq hqid
      · have hmemT : t ∈ st.timelines := mem_of_getElem?_eq_some hget
        have htid : t.id = tlId := by rw [h1] at htl; simpa using htl
        have hq2 : q ∈ (f t.data).phases := by rw [h1] at hq; simpa using hq
        exact hf i t hidx hget htid (hinv t hmemT htid) q hq2 hqid

/-- No command other than the parallel checkbox on the phase itself (and no
freshly created record reusing its id) ever reverts a parallel phase to
sequential. -/
theorem applyOp_mode (st : AppState) (op : Op) (tlId pid : String)
    (hinv : modeInv tlId pid st)
    (hmode : opSetsModeOf st tlId pid op = false)
    (hfresh : opReusesId tlId pid op = false) :
    modeInv tlId pid (applyOp st op) := by
  cases op with
  | renamePhase idx name =>
    refine modifyActiveData_mode st _ tlId pid ?_ hinv
    intro i t _ _ _ hinvd q hq hqid
    simp only [] at hq
    rcases mem_modifyPhaseAt t.data.phases idx _ q hq with h1 | ⟨p0, hp0, h1⟩
    · exact hinvd q h1 hqid
    · rw [h1]
      rw [h1] at hqid
      exact hinvd p0 (mem_of_getElem?_eq_some hp0) hqid
  | setParallel idx checked =>
    refine modifyActiveData_mode st _ tlId pid ?_ hinv
    intro i t hidx hget htid hinvd q hq hqid
    simp only [] at hq
    cases hpget : t.data.phases[idx]? with
    | none =>
      rw [hpget] at hq
      exact hinvd q hq hqid
    | some p =>
      have hmode2 : (p.id == pid) = false := by
        unfold opSetsModeOf at hmode
        rw [hidx] at hmode
        simp only [] at hmode
        rw [hget] at hmode
        simp only [] at hmode
        have hb : (t.id == tlId) = true := by simp [htid]
        rw [hb] at hmode
        simp only [if_true] at hmode
        rw [hpget] at hmode
        exact hmode
      rw [hpget] at hq
      simp only [] at hq
      cases ha2 : (t.data.anchorPhaseId == p.id) with
      | true =>
        rw [ha2] at hq
        simp only [if_true] at hq
        exact hinvd q hq hqid
      | false =>
        rw [ha2] at hq
        simp only [Bool.false_eq_true, if_false] at hq
        rcases List.mem_or_eq_of_mem_set hq with h1 | h1
        · exact hinvd q h1 hqid
        · exfalso
          have hqp : q.id = p.id := by
            rw [h1]
            cases checked <;> rfl
          rw [hqp] at hqid
          rw [hqid] at hmode2
          simp at hmode2
  | setManualStart idx v =>
    refine modifyActiveData_mode st _ tlId pid ?_ hinv
    intro i t _ _ _ hinvd q hq hqid
    simp only [] at hq
    rcases mem_modifyPhaseAt t.data.phases idx _ q hq with h1 | ⟨p0, hp0, h1⟩
    · exact hinvd q h1 hqid
    · have hmem0 := mem_of_getElem?_eq_some hp0
      cases v with
      | none =>
        rw [h1]
        rw [h1] at hqid
        exact hinvd p0 hmem0 hqid
      | some s =>
        rw [h1]
        rw [h1] at hqid
        exact hinvd p0 hmem0 hqid
  | setManualEnd idx v =>
    refine modifyActiveData_mode st _ tlId pid ?_ hinv
    intro i t _ _ _ hinvd q hq hqid
    simp only [] at hq
    rcases mem_modifyPhaseAt t.data.phases idx _ q hq with h1 | ⟨p0, hp0, h1⟩
    · exact hinvd q h1 hqid
    · have hmem0 := mem_of_getElem?_eq_some hp0
      cases v with
      | none =>
        rw [h1]
        rw [h1] at hqid
        exact hinvd p0 hmem0 hqid
      | some e =>
        rw [h1]
        rw [h1] at hqid
        exact hinvd p0 hmem0 hqid
  | setDays idx v =>
    refine modifyActiveData_mode st _ tlId pid ?_ hinv
    intro i t _ _ _ hinvd q hq hqid
    simp only [] at hq
    cases hpget : t.data.phases[idx]? with
    | none =>
      rw [hpget] at hq
      exact hinvd q hq hqid
    | some p =>
      rw [hpget] at hq
      simp only [] at hq
      cases hpar : p.isParallel with
      | true =>
        rw [hpar] at hq
        simp only [if_true] at hq
        exact hinvd q hq hqid
      | false =>
        rw [hpar] at hq
        simp only [Bool.false_eq_true, if_false] at hq
        rcases List.mem_or_eq_of_mem_set hq with h1 | h1
        · exact hinvd q h1 hqid
        · exfalso
          rw [h1] at hqid
          have h2 := hinvd p (mem_of_getElem?_eq_some hpget) hqid
          rw [hpar] at h2
          simp at h2
  | deletePhase idx =>
    refine modifyActiveData_mode st _ tlId pid ?_ hinv
    intro i t _ _ _ hinvd q hq hqid
    simp only [] at hq
    cases hpget : t.data.phases[idx]? with
    | none =>
      rw [hpget] at hq
      exact hinvd q hq hqid
    | some p =>
      rw [hpget] at hq
      simp only [] at hq
      cases hb : (p.id == t.data.anchorPhaseId) with
      | true =>
        rw [hb] at hq
        simp only [if_true] at hq
        exact hinvd q (List.mem_of_mem_eraseIdx hq) hqid
      | false =>
        rw [hb] at hq
        simp only [Bool.false_eq_true, if_false] at hq
        exact hinvd q (List.mem_of_mem_eraseIdx hq) hqid
  | reorderPhase fromIdx toIdx =>
    refine modifyActiveData_mode st _ tlId pid ?_ hinv
    intro i t _ _ _ hinvd q hq hqid
    simp only [] at hq
    cases he : (fromIdx == toIdx) with
    | true =>
      rw [he] at hq
      simp only [if_true] at hq
      exact hinvd q hq hqid
    | false =>
      rw [he] at hq
      simp only [Bool.false_eq_true, if_false] at hq
      cases hpget : t.data.phases[fromIdx]? with
      | none =>
        rw [hpget] at hq
        exact hinvd q hq hqid
      | some moved =>
        rw [hpget] at hq
        simp only [] at hq
        rcases mem_insertAt _ _ _ q hq with h1 | h1
        · rw [h1] at hqid ⊢
          exact hinvd moved (mem_of_getElem?_eq_some hpget) hqid
        · exact hinvd q (List.mem_of_mem_eraseIdx h1) hqid
  | addPhase newId =>
    refine modifyActiveData_mode st _ tlId pid ?_ hinv
    intro i t _ _ _ hinvd q hq hqid
    simp only [] at hq
    rcases List.mem_append.mp hq with h1 | h1
    · exact hinvd q h1 hqid
    · exfalso
      have hqi : q.id = newId := by
        rcases List.mem_cons.mp h1 with h2 | h2
        · rw [h2]
        · simp at h2
      rw [hqi] at hqid
      unfold opReusesId at hfresh
      rw [hqid] at hfresh
      simp at hfresh
  | setAnchorPhase pid2 =>
    refine modifyActiveData_mode st _ tlId pid ?_ hinv
    intro i t _ _ _ hinvd q hq hqid
    exact hinvd q hq hqid
  | setAnchorType v =>
    refine modifyActiveData_mode st _ tlId pid ?_ hinv
    intro i t _ _ _ hinvd q hq hqid
    exact hinvd q hq hqid
  | setAnchorDate v =>
    refine modifyActiveData_mode st _ tlId pid ?_ hinv
    intro i t _ _ _ hinvd q hq hqid
    exact hinvd q hq hqid
  | toggleSort =>
    refine modifyActiveData_mode st _ tlId pid ?_ hinv
    intro i t _ _ _ hinvd q hq hqid
    exact hinvd q hq hqid
  | setHolidays hs2 =>
    intro t2 ht2 htl q hq hqid
    exact hinv t2 ht2 htl q hq hqid
  | selectTimeline tid =>
    intro t2 ht2 htl q hq hqid
    exact hinv t2 ht2 htl q hq hqid
  | addTimeline tid name today =>
    intro t2 ht2 htl q hq hqid
    rcases List.mem_append.mp ht2 with h1 | h1
    · exact hinv t2 h1 htl q hq hqid
    · exfalso
      have ht2id : t2.id = tid := by
        rcases List.mem_cons.mp h1 with h2 | h2
        · rw [h2]
        · simp at h2
      unfold opReusesId at hfresh
      rw [← ht2id, htl] at hfresh
      simp at hfresh
  | renameTimeline name =>
    cases name with
    | none => exact hinv
    | some nm =>
      show modeInv tlId pid (applyOp st (Op.renameTimeline (some nm)))
      unfold applyOp
      cases hidx : activeTimelineIdx st with
      | none => exact hinv
      | some i =>
        simp only []
        cases hget : st.timelines[i]? with
        | none => exact hinv
        | some t =>
          simp only []
          intro t2 ht2 htl q hq hqid
          rcases List.mem_or_eq_of_mem_set ht2 with h1 | h1
          · exact hinv t2 h1 htl q hq hqid
          · have hmemT : t ∈ st.timelines := mem_of_getElem?_eq_some hget
            have htid : t.id = tlId := by rw [h1] at htl; simpa using htl
            have hq2 : q ∈ t.data.phases := by rw [h1] at hq; simpa using hq
            exact hinv t hmemT htid q hq2 hqid
  | deleteTimeline =>
    unfold applyOp
    by_cases hle : st.timelines.length ≤ 1
    · simp only [if_pos hle]
      exact hinv
    · simp only [if_neg hle]
      cases hh : (st.timelines.filter fun t => !(t.id == st.activeTimelineId)).head? with
      | none => exact hinv
      | some t0 =>
        simp only []
        intro t2 ht2 htl q hq hqid
        exact hinv t2 (List.mem_of_mem_filter ht2) htl q hq hqid
  | gantt g delta => exact applyGanttChange_mode st g delta tlId pid hinv

/-- After promoting the first phase with the watched id, every phase with
that id is parallel (ids are unique). -/
theorem updatePhase_promote_inv (pid : String) (pS pE : Int) :
    ∀ ps : List Phase, (ps.map Phase.id).Nodup →
      ∀ q ∈ updatePhase pid (promotePhase pS pE) ps, q.id = pid →
        q.isParallel = true := by
  intro ps
  induction ps with
  | nil => intro _ q hq; simp [updatePhase] at hq
  | cons h0 tl ih =>
    intro hnd q hq hqid
    have hnd' : (∀ y ∈ tl, ¬ Phase.id y = h0.id) ∧ (tl.map Phase.id).Nodup := by
      simpa using hnd
    unfold updatePhase at hq
    cases hb : (h0.id == pid) with
    | true =>
      rw [hb] at hq
      simp only [if_true] at hq
      rcases List.mem_cons.mp hq with h1 | h1
      · rw [h1]; rfl
      · exfalso
        have hid0 : h0.id = pid := by simpa using hb
        exact hnd'.1 q h1 (by rw [hqid, hid0])
    | false =>
      rw [hb] at hq
      simp only [Bool.false_eq_true, if_false] at hq
      rcases List.mem_cons.mp hq with h1 | h1
      · exfalso
        have hid0 : h0.id = pid := by rw [← h1]; exact hqid
        rw [hid0] at hb
        simp at hb
      · exact ih hnd'.2 q h1 hqid

/-- Replacing the data of the (unique) timeline with the watched id makes the
watched invariant hold whenever the new data satisfies it. -/
theorem updateTimeline_constData_inv (tid pid : String) (D : TimelineData)
    (hD : ∀ q ∈ D.phases, q.id = pid → q.isParallel = true) :
    ∀ l : List Timeline, (l.map Timeline.id).Nodup →
      ∀ t2 ∈ updateTimeline tid (fun t0 => { t0 with data := D }) l, t2.id = tid →
        ∀ q ∈ t2.data.phases, q.id = pid → q.isParallel = true := by
  intro l
  induction l with
  | nil => intro _ t2 ht2; simp [updateTimeline] at ht2
  | cons h0 tl ih =>
    intro hnd t2 ht2 htl2 q hq hqid
    have hnd' : (∀ y ∈ tl, ¬ Timeline.id y = h0.id) ∧ (tl.map Timeline.id).Nodup := by
      simpa using hnd
    unfold updateTimeline at ht2
    cases hb : (h0.id == tid) with
    | true =>
      rw [hb] at ht2
      simp only [if_true] at ht2
      rcases List.mem_cons.mp ht2 with h1 | h1
      · have : t2.data = D := by rw [h1]
        rw [this] at hq
        exact hD q hq hqid
      · exfalso
        have hid0 : h0.id = tid := by simpa using hb
        exact hnd'.1 t2 h1 (by rw [htl2, hid0])
    | false =>
      rw [hb] at ht2
      simp only [Bool.false_eq_true, if_false] at ht2
      rcases List.mem_cons.mp ht2 with h1 | h1
      · exfalso
        have hid0 : h0.id = tid := by rw [← h1]; exact htl2
        rw [hid0] at hb
        simp at hb
      · exact ih hnd'.2 t2 h1 htl2 q hq hqid

/-- C3.  An accepted (collision-free, non-zero deltaDays) move of a
non-anchor phase (valid anchor id, well-formed data): the state change is the
promotion of the dragged phase, the promoted phase is in parallel mode with
manualStartDate/manualEndDate equal to the proposed span (its current
resolved span shifted by deltaDays calendar days); afterwards every phase
with that id in that timeline is parallel, and no later command that does
not toggle the parallel checkbox of that very phase (nor creates a fresh
record reusing a watched id) ever reverts it: every command preserves the
all-parallel invariant for any watched timeline and phase id. -/
theorem move_promotion_persistence (st : AppState) (g : DragState) (δ : Int)
    (t : Timeline) (p : Phase) (mIt : ScheduleItem)
    (htype : g.type = "move") (hδ : δ ≠ 0)
    (ht : st.timelines.find? (fun t0 => t0.id == g.timelineId) = some t)
    (hp : t.data.phases.find? (fun q => q.id == g.phaseId) = some p)
    (hna : (p.id == t.data.anchorPhaseId) = false)
    (hanchor : ∃ a ∈ t.data.phases, (a.id == t.data.anchorPhaseId) = true)
    (hnd : (t.data.phases.map Phase.id).Nodup)
    (hndT : (st.timelines.map Timeline.id).Nodup)
    (hwf : p.isParallel = true → p.manualStartDate.isSome = true →
      p.manualEndDate.isSome = true)
    (hmIt : ((calculateSchedule st.globalHolidays t.data).1.getD []).find?
        (fun it => it.id == g.phaseId) = some mIt)
    (hcol : hasCollision t.data g.phaseId (mIt.startDate + δ) (mIt.endDate + δ)
        ((calculateSchedule st.globalHolidays t.data).1.getD []) = false) :
    applyGanttChange st g δ
      = { st with timelines := (updateTimeline g.timelineId (fun t0 =>
          ({ t0 with data := ({ t.data with phases := (updatePhase g.phaseId
            (promotePhase (mIt.startDate + δ) (mIt.endDate + δ)) t.data.phases) }) }))
          st.timelines) } ∧
    (promotePhase (mIt.startDate + δ) (mIt.endDate + δ) p).isParallel = true ∧
    (promotePhase (mIt.startDate + δ) (mIt.endDate + δ) p).manualStartDate
      = some (mIt.startDate + δ) ∧
    (promotePhase (mIt.startDate + δ) (mIt.endDate + δ) p).manualEndDate
      = some (mIt.endDate + δ) ∧
    modeInv g.timelineId g.phaseId (applyGanttChange st g δ) ∧
    (∀ st2 : AppState, ∀ op : Op, ∀ tlId pid2 : String,
      modeInv tlId pid2 st2 → opSetsModeOf st2 tlId pid2 op = false →
      opReusesId tlId pid2 op = false → modeInv tlId pid2 (applyOp st2 op)) := by
  have hacc := move_accept st g δ t p mIt htype hδ ht hp hna hanchor hnd hwf hmIt hcol
  refine ⟨hacc, rfl, rfl, rfl, ?_, fun st2 op tlId pid2 => applyOp_mode st2 op tlId pid2⟩
  rw [hacc]
  intro t2 ht2 htl2 q hq hqid
  exact updateTimeline_constData_inv g.timelineId g.phaseId _
    (updatePhase_promote_inv g.phaseId (mIt.startDate + δ) (mIt.endDate + δ)
      t.data.phases hnd)
    st.timelines hndT t2 ht2 htl2 q hq hqid

/-- Witness for C3 at a concrete accepted move. -/
theorem move_promotion_persistence_witness :
    (promotePhase 11 15
        { id := "2", name := "b", days := 3, isParallel := false,
          manualStartDate := none, manualEndDate := none }).isParallel = true := by
  have h := move_promotion_persistence validMoveState validMoveDrag 10
    { id := "T", name := "T",
      data :=
        { anchorDate := 0, anchorPhaseId := "1", anchorType := "end", sortOrder := "asc",
          phases :=
            [{ id := "1", name := "a", days := 1, isParallel := false,
                manualStartDate := none, manualEndDate := none },
              { id := "2", name := "b", days := 3, isParallel := false,
                manualStartDate := none, manualEndDate := none },
              { id := "3", name := "c", days := 3, isParallel := false,
                manualStartDate := none, manualEndDate := none }] } }
    { id := "2", name := "b", days := 3, isParallel := false,
      manualStartDate := none, manualEndDate := none }
    { id := "2", name := "b", days := 3, isParallel := false,
      manualStartDate := none, manualEndDate := none,
      startDate := 1, endDate := 5 }
    rfl (by decide) rfl rfl (by decide) (by decide) (by decide) (by decide)
    (by decide) rfl rfl
  exact h.2.1

end MiniSchedule
